import Mathlib

/-!
Verification of the Calyx crisis-conversation orchestrator backend.

The Python sources under `backend/` are shallowly embedded: strings become
`List Char`, the regex operations of `groq_service.py` and `murf_service.py`
become explicit character scanners with the same leftmost, non-overlapping,
first-alternative matching discipline as Python's `re` module, and the
asyncio session of `main.py` becomes an explicit transition system on a
session-state record (single-threaded cooperative scheduling: every run of
statements between awaits is one atomic step).
-/

namespace Calyx

/-- Strings are modelled as lists of characters. -/
abbrev Str := List Char

/-- Coerce a Lean string literal to the character-list representation. -/
def lc (s : String) : Str := s.data

/-- Character class `[A-Z]` used by the control-tag regexes. -/
def isUpperAZ (c : Char) : Bool := 'A' ≤ c && c ≤ 'Z'

/-- ASCII lower-case letter. -/
def isLowerAZ (c : Char) : Bool := 'a' ≤ c && c ≤ 'z'

/-- ASCII digit. -/
def isDigit09 (c : Char) : Bool := '0' ≤ c && c ≤ '9'

/-- Character class `\w` (ASCII range, matching the tag payloads the code
    actually produces). -/
def isWordChar (c : Char) : Bool :=
  isUpperAZ c || isLowerAZ c || isDigit09 c || c == '_'

/-- Whitespace class `\s` (the ASCII members). -/
def isSpaceChar (c : Char) : Bool :=
  c == ' ' || c == '\t' || c == '\n' || c == '\r' || c == '\x0b' || c == '\x0c'

/-- `dropLit pat s` returns `some r` with `s = pat ++ r` when `pat` is a
    literal prefix of `s`, and `none` otherwise. -/
def dropLit : Str → Str → Option Str
  | [], s => some s
  | _ :: _, [] => none
  | p :: ps, c :: cs => if c = p then dropLit ps cs else none

/-- Python's `x in s` membership test for a single character. -/
def hasChar (c : Char) (s : Str) : Bool := s.any (fun d => d = c)

/-- Literal-prefix test. -/
def isPre : Str → Str → Bool
  | [], _ => true
  | _ :: _, [] => false
  | p :: ps, c :: cs => p = c && isPre ps cs

/-- Python's substring test `pat in s`. -/
def hasSub (pat : Str) : Str → Bool
  | [] => pat.isEmpty
  | c :: cs => isPre pat (c :: cs) || hasSub pat cs

/-!
## Streaming signal parser
`GroqService.get_streaming_response`, `groq_service.py` lines 239–289.

The token loop accumulates a `buffer`; whenever the buffer contains `]` it
runs `re.findall(r"\[MODE:([A-Z]+)(?::(\w+))?\]", buffer)`, dispatches
`set_mode` per match, yields `SIGNAL_CALL` / `SIGNAL_TIMER` when the literal
tag is a substring of the buffer, strips complete `[MODE:...]` and
`[SIGNAL:...]` tags, and flushes the buffer as text once it contains no `[`.
-/

/-- Does the string start with the character `c`? -/
def headIs (c : Char) : Str → Bool
  | d :: _ => d = c
  | [] => false

/-- Matcher for the regex `\[MODE:([A-Z]+)(?::(\w+))?\]` anchored at the head
    of `s`: returns the two groups and the total length of the match.
    The alternation/optional structure is deterministic for this pattern, so
    no backtracking is required (after the greedy `[A-Z]+` run the next
    character is never upper-case, and after the greedy `\w+` run the next
    character is never a word character). -/
def matchModeAt (s : Str) : Option (Str × Option Str × Nat) :=
  match dropLit (lc "[MODE:") s with
  | none => none
  | some r1 =>
    let name := r1.takeWhile isUpperAZ
    let r2 := r1.dropWhile isUpperAZ
    if name.isEmpty then none
    else if headIs ']' r2 then some (name, none, 6 + name.length + 1)
    else if headIs ':' r2 then
      let r3 := r2.tail
      let per := r3.takeWhile isWordChar
      if per.isEmpty then none
      else if headIs ']' (r3.dropWhile isWordChar) then
        some (name, some per, 6 + name.length + 1 + per.length + 1)
      else none
    else none

/-- Matcher for `\[SIGNAL:([A-Z]+)\]` anchored at the head of `s`. -/
def matchSignalAt (s : Str) : Option (Str × Nat) :=
  match dropLit (lc "[SIGNAL:") s with
  | none => none
  | some r1 =>
    let name := r1.takeWhile isUpperAZ
    if name.isEmpty then none
    else if headIs ']' (r1.dropWhile isUpperAZ) then some (name, 8 + name.length + 1)
    else none

/-- The scanning loop of `re.findall(r"\[MODE:([A-Z]+)(?::(\w+))?\]", s)`,
    with an explicit fuel (the input length bounds the number of steps, and
    the fuel is irrelevant beyond it — see `findModesF_pair`). -/
def findModesF : Nat → Str → List (Str × Option Str)
  | 0, _ => []
  | _ + 1, [] => []
  | fuel + 1, c :: cs =>
    match matchModeAt (c :: cs) with
    | some (n, p, len) => (n, p) :: findModesF fuel (List.drop (len - 1) cs)
    | none => findModesF fuel cs

/-- `re.findall(r"\[MODE:([A-Z]+)(?::(\w+))?\]", s)`: leftmost,
    non-overlapping scan collecting the groups of every match. -/
def findModes (s : Str) : List (Str × Option Str) := findModesF s.length s

/-- The scanning loop of `re.sub(r"\[MODE:[A-Z]+(?::\w+)?\]", "", s)`. -/
def subModeF : Nat → Str → Str
  | 0, s => s
  | _ + 1, [] => []
  | fuel + 1, c :: cs =>
    match matchModeAt (c :: cs) with
    | some (_, _, len) => subModeF fuel (List.drop (len - 1) cs)
    | none => c :: subModeF fuel cs

/-- `re.sub(r"\[MODE:[A-Z]+(?::\w+)?\]", "", s)`. -/
def subMode (s : Str) : Str := subModeF s.length s

/-- The scanning loop of `re.sub(r"\[SIGNAL:[A-Z]+\]", "", s)`. -/
def subSignalF : Nat → Str → Str
  | 0, s => s
  | _ + 1, [] => []
  | fuel + 1, c :: cs =>
    match matchSignalAt (c :: cs) with
    | some (_, len) => subSignalF fuel (List.drop (len - 1) cs)
    | none => c :: subSignalF fuel cs

/-- `re.sub(r"\[SIGNAL:[A-Z]+\]", "", s)`. -/
def subSignal (s : Str) : Str := subSignalF s.length s

/-- Events produced by one LLM streaming turn: a flushed text chunk, a
    `set_mode` invocation (with the persona argument actually passed), or a
    yielded `SIGNAL_CALL` / `SIGNAL_TIMER` byte-string. -/
inductive PEv where
  | text (s : Str)
  | modeCall (mode : Str) (persona : Option Str)
  | sigCall
  | sigTimer
deriving DecidableEq, Repr

/-- The `elif` chain over a `findall` match (`groq_service.py` 256–273):
    only the seven known mode names reach `set_mode`; `DECOY` defaults its
    persona to `"friend"`; every other mode is called with persona `None`. -/
def modeDispatch (m : Str × Option Str) : List PEv :=
  if m.1 = lc "STEALTH" then [.modeCall (lc "STEALTH") none]
  else if m.1 = lc "DECOY" then [.modeCall (lc "DECOY") (some (m.2.getD (lc "friend")))]
  else if m.1 = lc "COVERT" then [.modeCall (lc "COVERT") none]
  else if m.1 = lc "CALM" then [.modeCall (lc "CALM") none]
  else if m.1 = lc "MEDICAL" then [.modeCall (lc "MEDICAL") none]
  else if m.1 = lc "URGENT" then [.modeCall (lc "URGENT") none]
  else if m.1 = lc "DEFAULT" then [.modeCall (lc "DEFAULT") none]
  else []

/-- Concatenate the per-match dispatches. -/
def modeDispatchAll (ms : List (Str × Option Str)) : List PEv :=
  match ms with
  | [] => []
  | m :: rest => modeDispatch m ++ modeDispatchAll rest

/-- The `if "]" in buffer:` block (lines 255–282): find and dispatch mode
    tags, yield signal bytes for the two literal signal tags, then strip all
    complete tags from the buffer. -/
def scanStep (buf : Str) : List PEv × Str :=
  if hasChar ']' buf then
    (modeDispatchAll (findModes buf)
      ++ (if hasSub (lc "[SIGNAL:CALL]") buf then [PEv.sigCall] else [])
      ++ (if hasSub (lc "[SIGNAL:TIMER]") buf then [PEv.sigTimer] else []),
     subSignal (subMode buf))
  else ([], buf)

/-- The `if buffer and "[" not in buffer:` flush (lines 284–286). -/
def flushStep (buf : Str) : List PEv × Str :=
  if !buf.isEmpty && !hasChar '[' buf then ([PEv.text buf], []) else ([], buf)

/-- Processing of one streamed token (`content`): empty deltas are skipped
    (`if content:`), otherwise the token is appended to the buffer and the
    scan and flush steps run. -/
def feedChunk (buf : Str) (content : Str) : List PEv × Str :=
  if content.isEmpty then ([], buf)
  else
    let s := scanStep (buf ++ content)
    let f := flushStep s.2
    (s.1 ++ f.1, f.2)

/-- The whole token loop followed by the final `if buffer: yield buffer`. -/
def runChunks (buf : Str) : List Str → List PEv
  | [] => if buf.isEmpty then [] else [PEv.text buf]
  | c :: cs =>
    let r := feedChunk buf c
    r.1 ++ runChunks r.2 cs

/-- The streaming parser applied to a fragment sequence, starting from the
    empty buffer (`buffer = ""`, line 239). -/
def parseStream (chunks : List Str) : List PEv := runChunks [] chunks

/-- Concatenation of the emitted `Text` events. -/
def textOf : List PEv → Str
  | [] => []
  | .text s :: rest => s ++ textOf rest
  | _ :: rest => textOf rest

/-- The sequence of `set_mode` invocations. -/
def modeCallsOf : List PEv → List (Str × Option Str)
  | [] => []
  | .modeCall m p :: rest => (m, p) :: modeCallsOf rest
  | _ :: rest => modeCallsOf rest

/-- Whether a `SIGNAL_CALL` byte-string was yielded at least once. -/
def hasCallEv (evs : List PEv) : Bool := evs.any (fun e => e = .sigCall)

/-- Whether a `SIGNAL_TIMER` byte-string was yielded at least once. -/
def hasTimerEv (evs : List PEv) : Bool := evs.any (fun e => e = .sigTimer)

/-!
## Well-formed tag streams (spec §4.1, §6)

The control-tag grammar: a directive is `[MODE:NAME]`, `[MODE:NAME:PERSONA]`
or `[SIGNAL:NAME]`; the claims quantify over streams whose concatenation is
an interleaving of bracket-free text and such well-formed tags.
-/

/-- A well-formed control tag. -/
inductive Tag where
  | mode (name : Str) (persona : Option Str)
  | signal (name : Str)
deriving DecidableEq, Repr

/-- One element of a well-formed stream: plain text or a tag. -/
inductive Item where
  | txt (s : Str)
  | tag (t : Tag)
deriving DecidableEq, Repr

/-- The concrete characters of a tag. -/
def renderTag : Tag → Str
  | .mode n none => lc "[MODE:" ++ n ++ [']']
  | .mode n (some p) => lc "[MODE:" ++ n ++ ':' :: p ++ [']']
  | .signal n => lc "[SIGNAL:" ++ n ++ [']']

/-- The concrete characters of a stream item. -/
def renderItem : Item → Str
  | .txt s => s
  | .tag t => renderTag t

/-- The concrete characters of a whole stream. -/
def render : List Item → Str
  | [] => []
  | it :: rest => renderItem it ++ render rest

/-- Grammar side conditions: tag names are non-empty upper-case words and
    personas are non-empty `\w` words. -/
def wfTag : Tag → Bool
  | .mode n none => !n.isEmpty && n.all isUpperAZ
  | .mode n (some p) => !n.isEmpty && n.all isUpperAZ && (!p.isEmpty && p.all isWordChar)
  | .signal n => !n.isEmpty && n.all isUpperAZ

/-- Text fragments of a well-formed stream contain no brackets. -/
def txtOk (s : Str) : Bool := s.all (fun c => !(c = '[') && !(c = ']'))

/-- Well-formedness of one stream item. -/
def wfItem : Item → Bool
  | .txt s => txtOk s
  | .tag t => wfTag t

/-- Well-formedness of a stream. -/
def wfItems (l : List Item) : Bool := l.all wfItem

/-- The tag-free text content of a stream (what §4.1 says the `Text` events
    must concatenate to). -/
def textsOf : List Item → Str
  | [] => []
  | .txt s :: rest => s ++ textsOf rest
  | .tag _ :: rest => textsOf rest

/-- The `(group1, group2)` pairs of the stream's mode tags, in order: what
    `re.findall` recovers over the whole stream. -/
def modePairsOf : List Item → List (Str × Option Str)
  | [] => []
  | .tag (.mode n p) :: rest => (n, p) :: modePairsOf rest
  | _ :: rest => modePairsOf rest

/-- The expected sequence of `set_mode` invocations for a stream. -/
def specModeCalls (items : List Item) : List PEv :=
  modeDispatchAll (modePairsOf items)

/-- Whether the stream contains a `[SIGNAL:n]` tag. -/
def hasSignalTag (n : Str) (items : List Item) : Bool :=
  items.any (fun it => it = .tag (.signal n))

/-- The concatenation of a fragment sequence. -/
def concatChunks : List Str → Str
  | [] => []
  | c :: cs => c ++ concatChunks cs

/-- Is a stream item a tag? -/
def isTagB : Item → Bool
  | .tag _ => true
  | .txt _ => false

/-- Is a stream item a mode tag? -/
def isModeTagB : Item → Bool
  | .tag (.mode _ _) => true
  | _ => false

/-- Is a stream item a signal tag? -/
def isSignalTagB : Item → Bool
  | .tag (.signal _) => true
  | _ => false

/-- Remove the mode tags of a stream (the effect of `subMode` on renders). -/
def dropModeTags (l : List Item) : List Item := l.filter (fun it => !isModeTagB it)

/-- Remove the signal tags of a stream (the effect of `subSignal`). -/
def dropSignalTags (l : List Item) : List Item := l.filter (fun it => !isSignalTagB it)

/-- A partially received tag: `g` is either empty or a proper prefix of the
    render of the tag standing at the head of the remaining stream. -/
def pendTag (g : Str) (rest : List Item) : Prop :=
  g = [] ∨ ∃ tg rest₂ d, rest = .tag tg :: rest₂ ∧ d ≠ [] ∧ renderTag tg = g ++ d

/-!
## Session state and the mode state machine
`models/state.py` and `models/voice_profiles.py`.
-/

/-- `SAFE_WORD` (`voice_profiles.py` line 10). -/
def SAFE_WORD : Str := lc "blueberries"

/-- One entry of `VOICE_PROFILES`. -/
structure VoiceProfile where
  voice_id : String
  style : String
  rate : Int
  pitch : Int
  description : String
deriving DecidableEq, Repr

/-- The `VOICE_PROFILES` dict (`voice_profiles.py` 12–83), as a lookup on its
    ten keys (the code only ever indexes it with these literal keys). -/
def VOICE_PROFILES (key : Str) : VoiceProfile :=
  if key = lc "DEFAULT" then ⟨"en-US-natalie", "Conversational", 0, 0, "Warm, supportive companion"⟩
  else if key = lc "STEALTH" then ⟨"en-US-natalie", "Meditative", -15, -10, "Whisper-quiet, minimal"⟩
  else if key = lc "DECOY_BROTHER" then ⟨"en-IN-aarav", "Conversational", 5, -5, "Protective older brother"⟩
  else if key = lc "DECOY_FATHER" then ⟨"en-IN-aarav", "Conversational", 0, -15, "Concerned father figure"⟩
  else if key = lc "DECOY_FRIEND" then ⟨"en-IN-aarav", "Conversational", 5, 0, "Male friend checking in"⟩
  else if key = lc "COVERT" then ⟨"en-US-natalie", "Conversational", 5, 0, "Casual cover conversation"⟩
  else if key = lc "CALM" then ⟨"en-US-natalie", "Meditative", -20, -5, "Therapeutic, grounding"⟩
  else if key = lc "MEDICAL" then ⟨"en-US-natalie", "Conversational", -5, 0, "Clear medical instructions"⟩
  else if key = lc "URGENT" then ⟨"en-US-natalie", "Conversational", 10, 5, "Action-oriented urgency"⟩
  else ⟨"en-US-natalie", "Conversational", 5, 0, "Professional emergency dispatcher"⟩

/-- `ConversationContext.__init__` fields (`state.py` 86–107); the
    `key_facts` and `user_state` dict entries become explicit fields, and
    message timestamps (wall clock) are omitted. -/
structure ConversationContext where
  messages : List (Str × Str)
  threat_level : Nat
  situation_summary : Str
  detected_scenario : Option Str
  kf_weapons : Option Str
  kf_injuries : Option Str
  kf_attacker_description : Option Str
  kf_location_details : Option Str
  kf_time_critical : Bool
  kf_coercion_detected : Bool
  kf_code_used : Option Str
  us_emotional : Str
  us_physical : Str
  us_can_speak : Bool
  safe_word_verified : Bool
  contacts_notified : List Str
  first_responder : Option Str
deriving DecidableEq, Repr

/-- A fresh `ConversationContext()`. -/
def ConversationContext.init : ConversationContext :=
  ⟨[], 0, [], none, none, none, none, none, false, false, none,
    lc "unknown", lc "unknown", true, false, [], none⟩

/-- `ConversationContext.add_message` (timestamps omitted). -/
def addMessage (ctx : ConversationContext) (role content : Str) : ConversationContext :=
  { ctx with messages := ctx.messages ++ [(role, content)] }

/-- `CalyxState.__init__` (`state.py` 174–186). The mutable
    `conversation_context` object is held by reference: `ctxRef` is an index
    into an explicit heap of contexts (see `Heap` below), so that object
    sharing between session states is observable. -/
structure CalyxState where
  mode : Str
  voice_profile : VoiceProfile
  mode_changed : Bool
  interrupted : Bool
  is_phone_call : Bool
  incident_context : Str
  call_active : Bool
  silent_mode : Bool
  covert_screen_active : Bool
  ctxRef : Nat
  decoy_persona : Option Str
  latency_samples : List Int
deriving DecidableEq, Repr

/-- The field values assigned by `CalyxState.__init__`, with the reference of
    the freshly allocated `ConversationContext()` passed in. -/
def CalyxState.init (ctxRef : Nat) : CalyxState :=
  { mode := lc "DEFAULT"
    voice_profile := VOICE_PROFILES (lc "DEFAULT")
    mode_changed := true
    interrupted := false
    is_phone_call := false
    incident_context := []
    call_active := false
    silent_mode := false
    covert_screen_active := false
    ctxRef := ctxRef
    decoy_persona := none
    latency_samples := [] }

/-- `CalyxState.set_mode` (`state.py` 224–251). -/
def setMode (s : CalyxState) (mode : Str) (decoy_persona : Option Str := none) :
    CalyxState :=
  if s.mode ≠ mode ∨ s.decoy_persona ≠ decoy_persona then
    let s1 := { s with mode := mode, decoy_persona := decoy_persona }
    let s2 :=
      if mode = lc "STEALTH" then
        { s1 with voice_profile := VOICE_PROFILES (lc "STEALTH"), silent_mode := true }
      else if mode = lc "DECOY" then
        if decoy_persona = some (lc "brother") then
          { s1 with voice_profile := VOICE_PROFILES (lc "DECOY_BROTHER") }
        else if decoy_persona = some (lc "father") then
          { s1 with voice_profile := VOICE_PROFILES (lc "DECOY_FATHER") }
        else
          { s1 with voice_profile := VOICE_PROFILES (lc "DECOY_FRIEND") }
      else if mode = lc "COVERT" then
        { s1 with voice_profile := VOICE_PROFILES (lc "COVERT") }
      else if mode = lc "CALM" then
        { s1 with voice_profile := VOICE_PROFILES (lc "CALM") }
      else if mode = lc "MEDICAL" then
        { s1 with voice_profile := VOICE_PROFILES (lc "MEDICAL") }
      else if mode = lc "URGENT" then
        { s1 with voice_profile := VOICE_PROFILES (lc "URGENT") }
      else
        { s1 with voice_profile := VOICE_PROFILES (lc "DEFAULT") }
    { s2 with mode_changed := true }
  else s

/-- Modelled from the spec (§4.2): the immutable `(mode, persona)` → profile
    lookup the spec says an actual transition installs. -/
def profileTable (mode : Str) (persona : Option Str) : VoiceProfile :=
  if mode = lc "STEALTH" then VOICE_PROFILES (lc "STEALTH")
  else if mode = lc "DECOY" then
    if persona = some (lc "brother") then VOICE_PROFILES (lc "DECOY_BROTHER")
    else if persona = some (lc "father") then VOICE_PROFILES (lc "DECOY_FATHER")
    else VOICE_PROFILES (lc "DECOY_FRIEND")
  else if mode = lc "COVERT" then VOICE_PROFILES (lc "COVERT")
  else if mode = lc "CALM" then VOICE_PROFILES (lc "CALM")
  else if mode = lc "MEDICAL" then VOICE_PROFILES (lc "MEDICAL")
  else if mode = lc "URGENT" then VOICE_PROFILES (lc "URGENT")
  else VOICE_PROFILES (lc "DEFAULT")

/-!
## Escalation timer subsystem
Transition system over the timer-relevant pieces of the `/ws/chat` session
(`main.py` 122–400). The asyncio scheduling model is single-threaded and
cooperative; statements between awaits run atomically, and a created
countdown task is modelled as starting atomically with its creation (its
first actions — clearing `timer_cancelled` and sending `timer_started` —
run before anything else observes it). `task.cancel()` on a task suspended
in `asyncio.sleep` is modelled as the immediate delivery of
`CancelledError`: the task's `except` branch sends `timer_cancelled` and
the task can no longer fire.
-/

/-- Life cycle of one `start_call_countdown` task (`main.py` 174–187). -/
inductive CdStatus where
  | sleeping (remaining : Nat)
  | doneFired
  | doneQuiet
  | cancelled
deriving DecidableEq, Repr

/-- Outbound messages of the timer subsystem. -/
inductive OutMsg where
  | timerStarted (seconds : Nat)
  | timerCancelled
  | alertSent
deriving DecidableEq, Repr

/-- The timer-relevant session state: the pool of countdown tasks ever
    created (`sosRef` is the `sos_task` variable pointing at the newest),
    the `timer_cancelled` flag, the inactivity watchdog, `call_active`, and
    the messages sent to the client. -/
structure SessionSt where
  sosTasks : List CdStatus
  sosRef : Option Nat
  timerCancelled : Bool
  watchdog : Option Nat
  callActive : Bool
  msgs : List OutMsg
deriving DecidableEq, Repr

/-- Is a countdown task still pending (sleeping, not done, not cancelled)? -/
def isSleeping : CdStatus → Bool
  | .sleeping _ => true
  | _ => false

/-- Session start (`main.py` 135–141 and 234). -/
def SessionSt.init : SessionSt :=
  { sosTasks := [], sosRef := none, timerCancelled := false,
    watchdog := some 10, callActive := false, msgs := [] }

/-- `if sos_task and not sos_task.done(): sos_task.cancel()` together with
    the cancelled task's handler sending `timer_cancelled`
    (`main.py` 184–187). -/
def cancelSos (s : SessionSt) : SessionSt :=
  match s.sosRef with
  | none => s
  | some i =>
    match s.sosTasks.get? i with
    | some (.sleeping _) =>
      { s with sosTasks := s.sosTasks.set i .cancelled,
               msgs := s.msgs ++ [.timerCancelled] }
    | _ => s

/-- `sos_task = asyncio.create_task(start_call_countdown(seconds, ...))`
    plus the task body's first actions (`main.py` 176–181). -/
def armCountdown (s : SessionSt) (secs : Nat) : SessionSt :=
  { s with sosTasks := s.sosTasks ++ [.sleeping secs],
           sosRef := some s.sosTasks.length,
           timerCancelled := false,
           msgs := s.msgs ++ [.timerStarted secs] }

/-- `trigger_call` → `relay.trigger_emergency_protocol` (which returns early
    when `call_active` is already set) followed by the `alert_sent` message
    (`main.py` 144–171, `guardian_relay.py` 29–34). -/
def triggerCall (s : SessionSt) : SessionSt :=
  let s1 := if s.callActive then s else { s with callActive := true }
  { s1 with msgs := s1.msgs ++ [.alertSent] }

/-- One second of progress for one countdown task: a task whose sleep has
    elapsed resumes and runs `if not timer_cancelled: await trigger_call`
    (`main.py` 181–183). -/
def tickTask (st : CdStatus) (s : SessionSt) : CdStatus × SessionSt :=
  match st with
  | .sleeping 0 => if s.timerCancelled then (.doneQuiet, s) else (.doneFired, triggerCall s)
  | .sleeping (r + 1) => (.sleeping r, s)
  | other => (other, s)

/-- Tick every countdown task in creation order. -/
def tickAll : List CdStatus → SessionSt → List CdStatus × SessionSt
  | [], s => ([], s)
  | t :: ts, s =>
    let r := tickTask t s
    let rr := tickAll ts r.2
    (r.1 :: rr.1, rr.2)

/-- One second of progress for the inactivity watchdog
    (`start_inactivity_timer`, `main.py` 190–198). -/
def tickWatchdog (s : SessionSt) : SessionSt :=
  match s.watchdog with
  | none => s
  | some 0 =>
    if !s.timerCancelled && !s.callActive then { (triggerCall s) with watchdog := none }
    else { s with watchdog := none }
  | some (r + 1) => { s with watchdog := some r }

/-- The events of the `/ws/chat` session that touch the timer subsystem. -/
inductive SEv where
  | signalTimer
  | cancelCmd
  | voiceTranscript
  | textMessage (hasCancel : Bool)
  | dequeueUtterance
  | sosCmd
  | tick
deriving DecidableEq, Repr

/-- The transition function. Each branch is the statement run between two
    suspension points at the cited lines of `main.py`. -/
def step (e : SEv) (s : SessionSt) : SessionSt :=
  match e with
  | .signalTimer =>
    -- SIGNAL_TIMER handling, main.py 325–329 (voice) and 384–388 (text)
    let s1 := cancelSos s
    if s1.timerCancelled then s1 else armCountdown s1 5
  | .cancelCmd =>
    -- "cancel_timer" command, main.py 268–271
    cancelSos { s with timerCancelled := true }
  | .voiceTranscript =>
    -- on_transcript, main.py 211–215
    cancelSos { s with watchdog := some 10 }
  | .textMessage hasCancel =>
    -- "text_message" command, main.py 258–266
    let s1 := { s with watchdog := some 10 }
    if hasCancel then cancelSos { s1 with timerCancelled := true } else s1
  | .dequeueUtterance =>
    -- process_voice_ai dequeues an utterance, main.py 307
    { s with timerCancelled := false }
  | .sosCmd =>
    -- "sos" command, main.py 273–274
    triggerCall s
  | .tick =>
    let r := tickAll s.sosTasks s
    tickWatchdog { r.2 with sosTasks := r.1 }

/-- States reachable from a fresh session. -/
inductive Reachable : SessionSt → Prop where
  | init : Reachable SessionSt.init
  | step (e : SEv) {s : SessionSt} : Reachable s → Reachable (step e s)

/-- States reachable from a given state. -/
inductive ReachFrom : SessionSt → SessionSt → Prop where
  | refl (s : SessionSt) : ReachFrom s s
  | step (e : SEv) {s t : SessionSt} : ReachFrom s t → ReachFrom s (step e t)

/-- Number of pending escalation countdowns. -/
def pendingCount (s : SessionSt) : Nat := (s.sosTasks.filter isSleeping).length

/-!
## Synthesis adapter: hallucination filter and the text sent to Murf
`MurfService._gen_audio_with_duration` and `_filter_hallucinations`
(`murf_service.py` 58–127). The regex patterns become ordered-choice
matchers; for every pattern the alternatives are pairwise exclusive at any
input position, so Python's backtracking never changes the outcome and a
deterministic first-match scan is faithful.
-/

/-- Case-insensitive literal match at the head of `s` (the pattern is given
    lower-case); returns the consumed length. -/
def litCI : Str → Str → Option Nat
  | [], _ => some 0
  | _ :: _, [] => none
  | p :: ps, c :: cs => if c.toLower = p then (litCI ps cs).map (· + 1) else none

/-- Ordered alternation over literal alternatives. -/
def firstAlt (alts : List Str) (s : Str) : Option Nat :=
  match alts with
  | [] => none
  | a :: rest =>
    match litCI a s with
    | some n => some n
    | none => firstAlt rest s

/-- Sequencing of matchers. -/
def seqM (m1 m2 : Str → Option Nat) (s : Str) : Option Nat :=
  match m1 s with
  | none => none
  | some n =>
    match m2 (s.drop n) with
    | none => none
    | some k => some (n + k)

/-- Ordered choice of matchers. -/
def altM (m1 m2 : Str → Option Nat) (s : Str) : Option Nat :=
  match m1 s with
  | some n => some n
  | none => m2 s

/-- Optional matcher (`(?:...)?`). -/
def optM (m : Str → Option Nat) (s : Str) : Option Nat :=
  match m s with
  | some n => some n
  | none => some 0

/-- Denylist pattern 1 (`murf_service.py` 113). -/
def pat1 : Str → Option Nat :=
  seqM (firstAlt [lc "i'm ", lc "i am ", lc "i will ", lc "i can ", lc "i'll ",
      lc "let me ", lc "going to "])
    (altM (firstAlt [lc "track", lc "locate", lc "find", lc "trace", lc "ping",
        lc "monitor", lc "watch", lc "see", lc "view", lc "access", lc "hack",
        lc "unlock", lc "control", lc "dispatch"])
      (altM (seqM (litCI (lc "send ")) (firstAlt [lc "police", lc "ambulance", lc "help"]))
        (seqM (litCI (lc "call "))
          (firstAlt [lc "911", lc "police", lc "ambulance", lc "emergency services"]))))

/-- Denylist pattern 2 (line 114). -/
def pat2 : Str → Option Nat :=
  firstAlt [lc "tracking", lc "locating", lc "finding", lc "tracing", lc "pinging",
    lc "monitoring", lc "dispatching", lc "sending help"]

/-- Denylist pattern 3 (line 115). -/
def pat3 : Str → Option Nat :=
  seqM (firstAlt [lc "i've ", lc "i have "])
    (seqM (firstAlt [lc "sent", lc "dispatched", lc "called", lc "alerted"])
      (seqM (litCI (lc " "))
        (firstAlt [lc "police", lc "ambulance", lc "emergency services", lc "911",
          lc "help"])))

/-- Denylist pattern 4 (line 116). -/
def pat4 : Str → Option Nat :=
  seqM (litCI (lc "authorities "))
    (seqM (firstAlt [lc "are", lc "have been"])
      (seqM (litCI (lc " "))
        (altM (firstAlt [lc "notified", lc "alerted", lc "dispatched"])
          (seqM (litCI (lc "on "))
            (seqM (optM (firstAlt [lc "the ", lc "their "])) (litCI (lc "way")))))))

/-- Denylist pattern 5 (line 117). -/
def pat5 : Str → Option Nat := litCI (lc "help is on the way")

/-- Denylist pattern 6 (line 118). -/
def pat6 : Str → Option Nat :=
  seqM (litCI (lc "i"))
    (seqM (firstAlt [lc "'m", lc " am"])
      (seqM (litCI (lc " "))
        (seqM (firstAlt [lc "alerting", lc "contacting", lc "calling"])
          (seqM (litCI (lc " "))
            (firstAlt [lc "emergency services", lc "police", lc "911"])))))

/-- The scanning loop of `re.sub` with an explicit replacement: leftmost,
    non-overlapping; a match consumes its length and emits the replacement.
    Zero-length matches are treated as failures (none of the embedded
    patterns can match the empty string). -/
def subReplF (m : Str → Option (Nat × Str)) : Nat → Str → Str
  | 0, s => s
  | _ + 1, [] => []
  | fuel + 1, c :: cs =>
    match m (c :: cs) with
    | some (Nat.succ k, rep) => rep ++ subReplF m fuel (List.drop k cs)
    | _ => c :: subReplF m fuel cs

/-- `re.sub` with an explicit replacement. -/
def subRepl (m : Str → Option (Nat × Str)) (s : Str) : Str := subReplF m s.length s

/-- Deletion wrapper: `re.sub(pattern, "", ...)`. -/
def delM (m : Str → Option Nat) : Str → Option (Nat × Str) :=
  fun s => (m s).map (fun n => (n, []))

/-- The six `re.sub(pattern, "", filtered, flags=re.IGNORECASE)` passes in
    list order (lines 121–123). -/
def hallSub (s : Str) : Str :=
  subRepl (delM pat6) (subRepl (delM pat5) (subRepl (delM pat4)
    (subRepl (delM pat3) (subRepl (delM pat2) (subRepl (delM pat1) s)))))

/-- Matcher for `\s+` with replacement `" "`. -/
def spaceRunM (s : Str) : Option (Nat × Str) :=
  let n := (s.takeWhile isSpaceChar).length
  if n = 0 then none else some (n, [' '])

/-- Matcher for `\s+([.,!?])` with replacement `\1`. -/
def spacePunctM (s : Str) : Option (Nat × Str) :=
  let n := (s.takeWhile isSpaceChar).length
  if n = 0 then none
  else
    match s.drop n with
    | c :: _ =>
      if c = '.' || c = ',' || c = '!' || c = '?' then some (n + 1, [c]) else none
    | [] => none

/-- Python `str.strip()` (whitespace at both ends). -/
def stripWs (s : Str) : Str :=
  ((s.dropWhile isSpaceChar).reverse.dropWhile isSpaceChar).reverse

/-- The value of `filtered` right before the final
    `return filtered if filtered else text` of `_filter_hallucinations`:
    denylist matches removed, whitespace normalised. -/
def filterResidual (text : Str) : Str :=
  subRepl spacePunctM (stripWs (subRepl spaceRunM (hallSub text)))

/-- `MurfService._filter_hallucinations` (lines 110–127): strip denylist
    matches, normalise whitespace — and fall back to the ORIGINAL text when
    the result is empty (`return filtered if filtered else text`). -/
def filterHallucinations (text : Str) : Str :=
  if (filterResidual text).isEmpty then text else filterResidual text

/-- Matcher body for `\[?KW\w+(?::\w+)?\]?\s*` after the optional `[`:
    the keyword (`"mode:"` / `"signal:"`, case-insensitive), a `\w+` run,
    an optional `:\w+` (only when `persona` is set, matching the MODE
    pattern; the SIGNAL pattern has no persona part), an optional `]`, and
    trailing whitespace. -/
def looseTagAfter (kw : Str) (persona : Bool) (r : Str) : Option Nat :=
  match litCI kw r with
  | none => none
  | some nk =>
    let r1 := r.drop nk
    let w1 := (r1.takeWhile isWordChar).length
    if w1 = 0 then none
    else
      let r2 := r1.drop w1
      let pr :=
        if persona then
          match r2 with
          | ':' :: rr =>
            let w2 := (rr.takeWhile isWordChar).length
            if w2 = 0 then (0, r2) else (1 + w2, rr.drop w2)
          | _ => (0, r2)
        else (0, r2)
      let br :=
        match pr.2 with
        | ']' :: rr => (1, rr)
        | _ => (0, pr.2)
      some (nk + w1 + pr.1 + br.1 + (br.2.takeWhile isSpaceChar).length)

/-- Matcher for the whole loose tag pattern including the optional `[`. -/
def matchLooseTag (kw : Str) (persona : Bool) (s : Str) : Option Nat :=
  match s with
  | '[' :: r =>
    match looseTagAfter kw persona r with
    | some n => some (n + 1)
    | none => none
  | _ => looseTagAfter kw persona s

/-- The control-tag stripping and re-strip of `_gen_audio_with_duration`
    (lines 60–66): the segment as it stands right before the hallucination
    filter. -/
def genAudioClean (text : Str) : Str :=
  stripWs (subRepl (delM (matchLooseTag (lc "signal:") false))
    (subRepl (delM (matchLooseTag (lc "mode:") true)) (stripWs text)))

/-- The text-processing part of `MurfService._gen_audio_with_duration`
    (lines 58–77): `some clean` is the text actually posted to the
    synthesis endpoint, `none` means the segment is skipped. -/
def genAudioText (text : Str) : Option Str :=
  if (stripWs text).isEmpty then none
  else
    let c3 := genAudioClean text
    if c3.length < 2 then none
    else
      let c4 := filterHallucinations c3
      if c4.length < 2 then none
      else some c4

/-!
## GroqService.get_streaming_response
The full turn (`groq_service.py` 208–303), composing the streaming parser
with the session state. The LLM collaborator is an input: the list of
content deltas it produced, plus whether the call raised (in which case the
deltas are those received before the exception and the `except` handler at
line 301 yields the fixed fallback instead of finishing the turn's
bookkeeping).
-/

/-- The byte-string / text outputs yielded by `get_streaming_response`. -/
inductive GOut where
  | sigSafe
  | sigCall
  | sigTimer
  | txt (s : Str)
deriving DecidableEq, Repr

/-- The parser loop without the final `if buffer: yield buffer` (the final
    flush is skipped when the stream raises mid-way). -/
def runChunksNoFinal (buf : Str) : List Str → List PEv
  | [] => []
  | c :: cs =>
    let r := feedChunk buf c
    r.1 ++ runChunksNoFinal r.2 cs

/-- Application of one parser event to the session: `set_mode` dispatch
    (with the COVERT branch's `key_facts["code_used"] = "covert"`), the
    `key_facts["time_critical"] = True` on `SIGNAL_CALL`, and the yielded
    outputs (`groq_service.py` 256–289). -/
def applyPEv (st : CalyxState) (ctx : ConversationContext) :
    PEv → CalyxState × ConversationContext × List GOut
  | .modeCall m p =>
    (setMode st m p,
      (if m = lc "COVERT" then { ctx with kf_code_used := some (lc "covert") } else ctx),
      [])
  | .sigCall => (st, { ctx with kf_time_critical := true }, [.sigCall])
  | .sigTimer => (st, ctx, [.sigTimer])
  | .text s => (st, ctx, [.txt s])

/-- Fold `applyPEv` over an event list. -/
def applyPEvs (st : CalyxState) (ctx : ConversationContext) :
    List PEv → CalyxState × ConversationContext × List GOut
  | [] => (st, ctx, [])
  | e :: es =>
    let r := applyPEv st ctx e
    let rr := applyPEvs r.1 r.2.1 es
    (rr.1, rr.2.1, r.2.2 ++ rr.2.2)

/-- The fixed safe fallback reply (line 303). -/
def fallbackReply : Str := lc "I'm here. Tell me what's happening."

/-- Memory truncation (lines 228–229):
    `self.memory = [self.memory[0]] + self.memory[-29:]`. -/
def truncMemory (mem : List (Str × Str)) : List (Str × Str) :=
  if mem.length > 30 then
    match mem with
    | m0 :: _ => m0 :: mem.drop (mem.length - 29)
    | [] => mem
  else mem

/-- Python `str.lower()`. -/
def lowerStr (s : Str) : Str := s.map Char.toLower

/-- Matcher for `\[(?:MODE|SIGNAL):[^\]]+\]` (the history-cleaning regex,
    line 291; case-sensitive, no IGNORECASE flag there). -/
def matchCleanTag (s : Str) : Option Nat :=
  match s with
  | '[' :: r =>
    let afterKw :=
      match dropLit (lc "MODE:") r with
      | some rr => some (5, rr)
      | none =>
        match dropLit (lc "SIGNAL:") r with
        | some rr => some (7, rr)
        | none => none
    match afterKw with
    | none => none
    | some (nk, rr) =>
      let w := (rr.takeWhile (fun c => !(c = ']'))).length
      if w = 0 then none
      else
        match rr.drop w with
        | ']' :: _ => some (1 + nk + w + 1)
        | _ => none
  | _ => none

/-- `re.sub(r"\[(?:MODE|SIGNAL):[^\]]+\]", "", full_response).strip()`. -/
def cleanResponse (s : Str) : Str :=
  stripWs (subRepl (delM matchCleanTag) s)

/-- The keyword table of `_analyze_context` (lines 310–320). -/
def scenarioTable : List (List Str × Str × Nat × Str) :=
  [([lc "intruder", lc "break in", lc "someone in my house", lc "breaking in"],
     lc "HOME_INTRUSION", 8, lc "reported a possible intruder in their home"),
   ([lc "following", lc "stalking", lc "behind me", lc "someone following"],
     lc "STALKING", 7, lc "is being followed by someone"),
   ([lc "hit me", lc "abusive", lc "hurts me", lc "violent"],
     lc "DOMESTIC_VIOLENCE", 8, lc "reported domestic violence"),
   ([lc "bleeding", lc "choking", lc "seizure", lc "heart attack"],
     lc "MEDICAL_EMERGENCY", 9, lc "is having a medical emergency"),
   ([lc "panic", lc "anxiety attack", lc "can't breathe", lc "panicking"],
     lc "PANIC_ATTACK", 5, lc "is having a panic attack"),
   ([lc "car broke", lc "stranded", lc "flat tire", lc "stuck"],
     lc "STRANDED", 4, lc "is stranded and needs help"),
   ([lc "drink", lc "drugged", lc "spiked", lc "dizzy"],
     lc "DRINK_SPIKING", 8, lc "may have been drugged"),
   ([lc "harassing", lc "threatening", lc "aggressive", lc "won't leave"],
     lc "HARASSMENT", 6, lc "is being harassed"),
   ([lc "scared", lc "afraid", lc "help", lc "danger"],
     lc "GENERAL_DANGER", 5, lc "feels unsafe and scared")]

/-- `GroqService._analyze_context` (lines 305–348). -/
def analyzeContext (ctx : ConversationContext) (userName : Str) (text : Str) :
    ConversationContext :=
  let tl := lowerStr text
  let c1 :=
    match scenarioTable.find? (fun row => row.1.any (fun k => hasSub k tl)) with
    | some (_, scen, lvl, desc) =>
      { ctx with detected_scenario := some scen,
                 threat_level := max ctx.threat_level lvl,
                 situation_summary := userName ++ lc " " ++ desc }
    | none => ctx
  let c2 :=
    if [lc "gun", lc "knife", lc "weapon"].any (fun w => hasSub w tl) then
      let cw := { c1 with kf_weapons := some (lc "Weapon mentioned"),
                          threat_level := min 10 (c1.threat_level + 2) }
      if !cw.situation_summary.isEmpty then
        { cw with situation_summary := cw.situation_summary ++ lc ". Weapon may be involved" }
      else cw
    else c1
  let c3 :=
    if [lc "hurt", lc "bleeding", lc "injured"].any (fun w => hasSub w tl) then
      { c2 with kf_injuries := some (lc "Injury reported") }
    else c2
  let c4 :=
    if hasSub (lc "i'm fine") tl && Nat.blt 5 c3.threat_level then
      { c3 with kf_coercion_detected := true }
    else c3
  if c4.situation_summary.isEmpty then
    let userMsgs := ((c4.messages.drop (c4.messages.length - 3)).filter
      (fun m => m.1 = lc "user")).map (fun m => m.2)
    match userMsgs.reverse.find? (fun m => m.length > 10) with
    | some msg => { c4 with situation_summary := lc "said: " ++ msg.take 100 }
    | none => c4
  else c4

/-- `GroqService.get_streaming_response` (lines 208–303). `sysPrompt` stands
    for the system-prompt text built by `_init_system_prompt` (its content
    is never inspected by the function); `chunks` are the content deltas the
    LLM delivered; `llmFails` marks an exception raised by the completion
    call or stream, after which control jumps to the `except` handler that
    yields the fixed fallback and returns (no history append, no context
    analysis). Returns (yielded outputs, memory, state, context). -/
def getStreamingResponse (sysPrompt : Str) (mem0 : List (Str × Str))
    (st : CalyxState) (ctx0 : ConversationContext) (userName : Str)
    (userInput : Str) (isTextMode : Bool) (chunks : List Str) (llmFails : Bool) :
    List GOut × List (Str × Str) × CalyxState × ConversationContext :=
  let mem1 := if mem0.isEmpty then [(lc "system", sysPrompt)] else mem0
  let safeHit := hasSub (lowerStr SAFE_WORD) (lowerStr userInput)
  let ctx1 := if safeHit then { ctx0 with safe_word_verified := true } else ctx0
  let outs0 : List GOut := if safeHit then [.sigSafe] else []
  let formatted :=
    if st.is_phone_call then lc "[CONTACT]: " ++ userInput
    else (if isTextMode then lc "[TEXT] " else []) ++ userInput
  let ctx2 := if st.is_phone_call then ctx1 else addMessage ctx1 (lc "user") userInput
  let mem2 := truncMemory (mem1 ++ [(lc "user", formatted)])
  let evs := if llmFails then runChunksNoFinal [] chunks else runChunks [] chunks
  let r := applyPEvs st ctx2 evs
  if llmFails then
    (outs0 ++ r.2.2 ++ [.txt fallbackReply], mem2, r.1, r.2.1)
  else
    let fullResponse := concatChunks chunks
    let mem3 := mem2 ++ [(lc "assistant", fullResponse)]
    if st.is_phone_call then (outs0 ++ r.2.2, mem3, r.1, r.2.1)
    else
      let ctx3 := addMessage r.2.1 (lc "assistant") (cleanResponse fullResponse)
      (outs0 ++ r.2.2, mem3, r.1, analyzeContext ctx3 userName userInput)

/-!
## Heap of conversation contexts and the telephone sub-session fork
`twilio_endpoint` (`main.py` 437–451). Object identity of the mutable
`ConversationContext` is made explicit: a heap maps references to context
values, and each `CalyxState` holds a reference.
-/

/-- The heap of allocated `ConversationContext` objects. -/
structure Heap where
  ctxs : List ConversationContext
deriving DecidableEq, Repr

/-- Allocate a fresh context object. -/
def allocCtx (h : Heap) (c : ConversationContext) : Nat × Heap :=
  (h.ctxs.length, ⟨h.ctxs ++ [c]⟩)

/-- Dereference. -/
def readCtx (h : Heap) (r : Nat) : ConversationContext :=
  h.ctxs.getD r ConversationContext.init

/-- Mutate the object behind a reference. -/
def writeCtx (h : Heap) (r : Nat) (c : ConversationContext) : Heap :=
  ⟨h.ctxs.set r c⟩

/-- `CalyxState()`: allocates a fresh `ConversationContext()` and builds the
    state record around its reference. -/
def newCalyxState (h : Heap) : CalyxState × Heap :=
  let a := allocCtx h ConversationContext.init
  (CalyxState.init a.1, a.2)

/-- The telephone sub-session creation (`main.py` 442–445):
    `phone_state = CalyxState()`;
    `phone_state.incident_context = calyx_state.incident_context`;
    `phone_state.conversation_context = calyx_state.conversation_context`
    (a reference assignment);
    `phone_state.is_phone_call = True`. -/
def twilioFork (h : Heap) (parent : CalyxState) : CalyxState × Heap :=
  let r := newCalyxState h
  ({ r.1 with incident_context := parent.incident_context,
              ctxRef := parent.ctxRef,
              is_phone_call := true }, r.2)

/-!
## Browser transcript handler
`on_transcript` (`main.py` 210–221).
-/

/-- The side effects of `on_transcript`, in program order. -/
inductive TAct where
  | resetInactivity
  | cancelSosTask
  | genEvidencePDF
  | sendEvidenceLink
  | downloadMsg
  | enqueue (t : Str)
deriving DecidableEq, Repr

/-- `on_transcript(text)`: reset the inactivity watchdog, cancel a pending
    `sos_task`, and — whenever the lower-cased text contains `"safe"` or
    `"end session"` — generate the evidence PDF, send the evidence link to
    the emergency contact, and send the `download` message; finally enqueue
    the transcript. -/
def onTranscript (text : Str) (sosPending : Bool) : List TAct :=
  [.resetInactivity]
    ++ (if sosPending then [.cancelSosTask] else [])
    ++ (if hasSub (lc "safe") (lowerStr text) || hasSub (lc "end session") (lowerStr text)
        then [.genEvidencePDF, .sendEvidenceLink, .downloadMsg] else [])
    ++ [.enqueue text]

/-! ## Theorems -/

section ParserLemmas

lemma dropLit_append (p s : Str) : dropLit p (p ++ s) = some s := by
  induction p with
  | nil => rfl
  | cons c cs ih => simp [dropLit, ih]

lemma dropLit_eq_some {p s r : Str} (h : dropLit p s = some r) : s = p ++ r := by
  induction p generalizing s with
  | nil => simpa [dropLit] using h
  | cons c cs ih =>
    cases s with
    | nil => simp [dropLit] at h
    | cons d ds =>
      by_cases hd : d = c
      · subst hd
        simp only [dropLit, if_pos rfl] at h
        simpa using ih h
      · simp [dropLit, hd] at h

lemma takeWhile_all_cons_neg {q : Char → Bool} {xs : Str} (y : Char) (r : Str)
    (hall : ∀ c ∈ xs, q c = true) (hy : q y = false) :
    (xs ++ y :: r).takeWhile q = xs := by
  induction xs with
  | nil => simp [List.takeWhile, hy]
  | cons c cs ih =>
    have hc : q c = true := hall c (by simp)
    simp only [List.cons_append, List.takeWhile_cons, hc, if_pos]
    simp only [List.cons.injEq, true_and]
    exact ih (fun d hd => hall d (by simp [hd]))

lemma dropWhile_all_cons_neg {q : Char → Bool} {xs : Str} (y : Char) (r : Str)
    (hall : ∀ c ∈ xs, q c = true) (hy : q y = false) :
    (xs ++ y :: r).dropWhile q = y :: r := by
  induction xs with
  | nil => simp [List.dropWhile, hy]
  | cons c cs ih =>
    have hc : q c = true := hall c (by simp)
    simp only [List.cons_append, List.dropWhile_cons, hc, if_pos]
    exact ih (fun d hd => hall d (by simp [hd]))

lemma hasChar_iff {c : Char} {s : Str} : hasChar c s = true ↔ c ∈ s := by
  simp [hasChar]

lemma hasChar_append {c : Char} (x y : Str) :
    hasChar c (x ++ y) = (hasChar c x || hasChar c y) := by
  simp [hasChar]

lemma isPre_iff {p s : Str} : isPre p s = true ↔ ∃ r, s = p ++ r := by
  induction p generalizing s with
  | nil => simp [isPre]
  | cons a ps ih =>
    cases s with
    | nil => simp [isPre]
    | cons b bs =>
      simp only [isPre, Bool.and_eq_true, decide_eq_true_eq, ih, List.cons_append,
        List.cons.injEq]
      constructor
      · rintro ⟨rfl, r, rfl⟩
        exact ⟨r, rfl, rfl⟩
      · rintro ⟨r, rfl, rfl⟩
        exact ⟨rfl, r, rfl⟩

lemma headIs_iff {c : Char} {s : Str} : headIs c s = true ↔ ∃ t, s = c :: t := by
  cases s with
  | nil => simp [headIs]
  | cons d ds =>
    simp only [headIs, decide_eq_true_eq, List.cons.injEq]
    constructor
    · rintro rfl
      exact ⟨ds, rfl, rfl⟩
    · rintro ⟨t, rfl, rfl⟩
      rfl

lemma matchModeAt_nil : matchModeAt [] = none := rfl

lemma matchModeAt_cons_ne {c : Char} (s : Str) (h : ¬ c = '[') :
    matchModeAt (c :: s) = none := by
  have hd : dropLit (lc "[MODE:") (c :: s) = none := by
    show dropLit ('[' :: lc "MODE:") (c :: s) = none
    simp [dropLit, h]
  simp [matchModeAt, hd]

lemma matchSignalAt_nil : matchSignalAt [] = none := rfl

lemma matchSignalAt_cons_ne {c : Char} (s : Str) (h : ¬ c = '[') :
    matchSignalAt (c :: s) = none := by
  have hd : dropLit (lc "[SIGNAL:") (c :: s) = none := by
    show dropLit ('[' :: lc "SIGNAL:") (c :: s) = none
    simp [dropLit, h]
  simp [matchSignalAt, hd]

lemma matchModeAt_sig_start (s : Str) : matchModeAt ('[' :: 'S' :: s) = none := by
  have hd : dropLit (lc "[MODE:") ('[' :: 'S' :: s) = none := by
    show dropLit ('[' :: 'M' :: lc "ODE:") ('[' :: 'S' :: s) = none
    simp [dropLit]
  simp [matchModeAt, hd]

lemma matchSignalAt_mode_start (s : Str) : matchSignalAt ('[' :: 'M' :: s) = none := by
  have hd : dropLit (lc "[SIGNAL:") ('[' :: 'M' :: s) = none := by
    show dropLit ('[' :: 'S' :: lc "IGNAL:") ('[' :: 'M' :: s) = none
    simp [dropLit]
  simp [matchSignalAt, hd]

lemma mem_of_mem_dropWhile {q : Char → Bool} {c : Char} {l : Str}
    (h : c ∈ l.dropWhile q) : c ∈ l := by
  have hsplit : l.takeWhile q ++ l.dropWhile q = l :=
    List.takeWhile_append_dropWhile q l
  rw [← hsplit]
  exact List.mem_append_right _ h

lemma matchModeAt_rbrack {s : Str} {x : Str × Option Str × Nat}
    (h : matchModeAt s = some x) : ']' ∈ s := by
  unfold matchModeAt at h
  cases hd : dropLit (lc "[MODE:") s with
  | none => rw [hd] at h; exact absurd h (by simp)
  | some r1 =>
    rw [hd] at h
    have hs : s = lc "[MODE:" ++ r1 := dropLit_eq_some hd
    have hmem1 : ∀ c, c ∈ r1 → c ∈ s := by
      intro c hc
      rw [hs]
      exact List.mem_append_right _ hc
    simp only at h
    split at h
    · exact absurd h (by simp)
    · split at h
      · rename_i hh
        obtain ⟨t, ht⟩ := headIs_iff.mp hh
        exact hmem1 ']' (mem_of_mem_dropWhile (by rw [ht]; simp))
      · split at h
        · rename_i hcol
          obtain ⟨t3, ht3⟩ := headIs_iff.mp hcol
          split at h
          · exact absurd h (by simp)
          · split at h
            · rename_i hh2
              obtain ⟨t4, ht4⟩ := headIs_iff.mp hh2
              refine hmem1 ']' (mem_of_mem_dropWhile (q := isUpperAZ) ?_)
              rw [ht3]
              have : ']' ∈ (List.dropWhile isUpperAZ r1).tail := by
                rw [ht3]
                exact mem_of_mem_dropWhile (q := isWordChar) (by rw [ht3] at ht4; rw [ht4]; simp)
              rw [ht3] at this
              exact List.mem_cons_of_mem _ this
            · exact absurd h (by simp)
        · exact absurd h (by simp)

lemma matchSignalAt_rbrack {s : Str} {x : Str × Nat}
    (h : matchSignalAt s = some x) : ']' ∈ s := by
  unfold matchSignalAt at h
  cases hd : dropLit (lc "[SIGNAL:") s with
  | none => rw [hd] at h; exact absurd h (by simp)
  | some r1 =>
    rw [hd] at h
    have hs : s = lc "[SIGNAL:" ++ r1 := dropLit_eq_some hd
    simp only at h
    split at h
    · exact absurd h (by simp)
    · split at h
      · rename_i hh
        obtain ⟨t, ht⟩ := headIs_iff.mp hh
        rw [hs]
        exact List.mem_append_right _ (mem_of_mem_dropWhile (by rw [ht]; simp))
      · exact absurd h (by simp)

lemma ne_of_class {q : Char → Bool} {c d : Char} (hc : q c = true) (hd : q d = false) :
    ¬ c = d := by
  intro h
  rw [h, hd] at hc
  exact Bool.noConfusion hc

lemma isEmpty_false_of_ne {l : Str} (h : l ≠ []) : l.isEmpty = false := by
  cases l with
  | nil => exact absurd rfl h
  | cons a as => rfl

lemma matchModeAt_mode_none {n : Str} (r : Str) (hne : n ≠ [])
    (hup : ∀ c ∈ n, isUpperAZ c = true) :
    matchModeAt (renderTag (.mode n none) ++ r) = some (n, none, 6 + n.length + 1) := by
  have hshape : renderTag (.mode n none) ++ r = lc "[MODE:" ++ (n ++ ']' :: r) := by
    simp [renderTag]
  rw [hshape]
  unfold matchModeAt
  rw [dropLit_append]
  simp only
  rw [takeWhile_all_cons_neg ']' r hup (by decide),
    dropWhile_all_cons_neg ']' r hup (by decide), isEmpty_false_of_ne hne]
  simp [headIs]

lemma matchModeAt_mode_some {n p : Str} (r : Str) (hne : n ≠ [])
    (hup : ∀ c ∈ n, isUpperAZ c = true) (hpe : p ≠ [])
    (hpw : ∀ c ∈ p, isWordChar c = true) :
    matchModeAt (renderTag (.mode n (some p)) ++ r) =
      some (n, some p, 6 + n.length + 1 + p.length + 1) := by
  have hshape : renderTag (.mode n (some p)) ++ r =
      lc "[MODE:" ++ (n ++ ':' :: (p ++ ']' :: r)) := by
    simp [renderTag]
  rw [hshape]
  unfold matchModeAt
  rw [dropLit_append]
  simp only
  rw [takeWhile_all_cons_neg ':' (p ++ ']' :: r) hup (by decide),
    dropWhile_all_cons_neg ':' (p ++ ']' :: r) hup (by decide), isEmpty_false_of_ne hne]
  simp only [headIs, List.tail_cons]
  rw [takeWhile_all_cons_neg ']' r hpw (by decide),
    dropWhile_all_cons_neg ']' r hpw (by decide), isEmpty_false_of_ne hpe]
  simp [headIs]

lemma matchSignalAt_signal {n : Str} (r : Str) (hne : n ≠ [])
    (hup : ∀ c ∈ n, isUpperAZ c = true) :
    matchSignalAt (renderTag (.signal n) ++ r) = some (n, 8 + n.length + 1) := by
  have hshape : renderTag (.signal n) ++ r = lc "[SIGNAL:" ++ (n ++ ']' :: r) := by
    simp [renderTag]
  rw [hshape]
  unfold matchSignalAt
  rw [dropLit_append]
  simp only
  rw [takeWhile_all_cons_neg ']' r hup (by decide),
    dropWhile_all_cons_neg ']' r hup (by decide), isEmpty_false_of_ne hne]
  simp [headIs]

lemma renderTag_body {tg : Tag} (h : wfTag tg = true) :
    ∃ body, renderTag tg = body ++ [']'] ∧ (∀ c ∈ body, ¬ c = ']') ∧
      ∃ tl, body = '[' :: tl := by
  cases tg with
  | mode n p =>
    cases p with
    | none =>
      simp only [wfTag, Bool.and_eq_true] at h
      refine ⟨lc "[MODE:" ++ n, by simp [renderTag], ?_, lc "MODE:" ++ n, by simp [lc]⟩
      intro c hc
      rcases List.mem_append.mp hc with h1 | h2
      · have hz : ∀ c ∈ lc "[MODE:", ¬ c = ']' := by decide
        exact hz c h1
      · exact ne_of_class (List.all_eq_true.mp h.2 c h2) (by decide)
    | some q =>
      simp only [wfTag, Bool.and_eq_true] at h
      refine ⟨lc "[MODE:" ++ n ++ ':' :: q, by simp [renderTag], ?_,
        lc "MODE:" ++ n ++ ':' :: q, by simp [lc]⟩
      intro c hc
      rcases List.mem_append.mp hc with h1 | h2
      · rcases List.mem_append.mp h1 with h3 | h4
        · have hz : ∀ c ∈ lc "[MODE:", ¬ c = ']' := by decide
          exact hz c h3
        · exact ne_of_class (List.all_eq_true.mp h.1.2 c h4) (by decide)
      · rcases List.mem_cons.mp h2 with h3 | h4
        · subst h3
          decide
        · exact ne_of_class (List.all_eq_true.mp h.2.2 c h4) (by decide)
  | signal n =>
    simp only [wfTag, Bool.and_eq_true] at h
    refine ⟨lc "[SIGNAL:" ++ n, by simp [renderTag], ?_, lc "SIGNAL:" ++ n, by simp [lc]⟩
    intro c hc
    rcases List.mem_append.mp hc with h1 | h2
    · have hz : ∀ c ∈ lc "[SIGNAL:", ¬ c = ']' := by decide
      exact hz c h1
    · exact ne_of_class (List.all_eq_true.mp h.2 c h2) (by decide)

lemma rb_mem_renderTag {tg : Tag} (h : wfTag tg = true) : ']' ∈ renderTag tg := by
  obtain ⟨body, hb, -, -⟩ := renderTag_body h
  rw [hb]
  simp

lemma renderTag_ne_nil {tg : Tag} (h : wfTag tg = true) : renderTag tg ≠ [] := by
  obtain ⟨body, hb, -, -⟩ := renderTag_body h
  rw [hb]
  simp

lemma findModesF_pair : ∀ (f1 f2 : Nat) (s : Str), s.length ≤ f1 → s.length ≤ f2 →
    findModesF f1 s = findModesF f2 s := by
  intro f1
  induction f1 with
  | zero =>
    intro f2 s h1 h2
    have hs : s = [] := List.eq_nil_of_length_eq_zero (Nat.le_zero.mp h1)
    subst hs
    cases f2 <;> rfl
  | succ f ih =>
    intro f2 s h1 h2
    cases s with
    | nil => cases f2 <;> rfl
    | cons c cs =>
      cases f2 with
      | zero => exact absurd h2 (by simp)
      | succ f2' =>
        have e1 : findModesF (f + 1) (c :: cs) =
            (match matchModeAt (c :: cs) with
             | some (n, p, len) => (n, p) :: findModesF f (List.drop (len - 1) cs)
             | none => findModesF f cs) := rfl
        have e2 : findModesF (f2' + 1) (c :: cs) =
            (match matchModeAt (c :: cs) with
             | some (n, p, len) => (n, p) :: findModesF f2' (List.drop (len - 1) cs)
             | none => findModesF f2' cs) := rfl
        rw [e1, e2]
        have hcs1 : cs.length ≤ f := by
          simp only [List.length_cons] at h1
          omega
        have hcs2 : cs.length ≤ f2' := by
          simp only [List.length_cons] at h2
          omega
        have hdl : ∀ k, (List.drop k cs).length ≤ cs.length := by
          intro k
          simp [List.length_drop]
        cases hm : matchModeAt (c :: cs) with
        | some x =>
          obtain ⟨n, p, len⟩ := x
          simp only
          congr 1
          exact ih f2' _ (le_trans (hdl _) hcs1) (le_trans (hdl _) hcs2)
        | none =>
          simp only
          exact ih f2' cs hcs1 hcs2

lemma findModes_nil : findModes [] = [] := rfl

lemma findModes_cons_some {c : Char} {cs n : Str} {p : Option Str} {len : Nat}
    (h : matchModeAt (c :: cs) = some (n, p, len)) :
    findModes (c :: cs) = (n, p) :: findModes (List.drop (len - 1) cs) := by
  have e1 : findModes (c :: cs) =
      (match matchModeAt (c :: cs) with
       | some (n, p, len) => (n, p) :: findModesF cs.length (List.drop (len - 1) cs)
       | none => findModesF cs.length cs) := rfl
  rw [e1, h]
  show (n, p) :: findModesF cs.length (List.drop (len - 1) cs) =
    (n, p) :: findModes (List.drop (len - 1) cs)
  exact congrArg ((n, p) :: ·)
    (findModesF_pair cs.length (List.drop (len - 1) cs).length (List.drop (len - 1) cs)
      (by simp only [List.length_drop]; omega) (le_refl _))

lemma findModes_cons_none {c : Char} {cs : Str} (h : matchModeAt (c :: cs) = none) :
    findModes (c :: cs) = findModes cs := by
  have e1 : findModes (c :: cs) =
      (match matchModeAt (c :: cs) with
       | some (n, p, len) => (n, p) :: findModesF cs.length (List.drop (len - 1) cs)
       | none => findModesF cs.length cs) := rfl
  rw [e1, h]
  rfl

lemma subModeF_pair : ∀ (f1 f2 : Nat) (s : Str), s.length ≤ f1 → s.length ≤ f2 →
    subModeF f1 s = subModeF f2 s := by
  intro f1
  induction f1 with
  | zero =>
    intro f2 s h1 h2
    have hs : s = [] := List.eq_nil_of_length_eq_zero (Nat.le_zero.mp h1)
    subst hs
    cases f2 <;> rfl
  | succ f ih =>
    intro f2 s h1 h2
    cases s with
    | nil => cases f2 <;> rfl
    | cons c cs =>
      cases f2 with
      | zero => exact absurd h2 (by simp)
      | succ f2' =>
        have e1 : subModeF (f + 1) (c :: cs) =
            (match matchModeAt (c :: cs) with
             | some (n, p, len) => subModeF f (List.drop (len - 1) cs)
             | none => c :: subModeF f cs) := rfl
        have e2 : subModeF (f2' + 1) (c :: cs) =
            (match matchModeAt (c :: cs) with
             | some (n, p, len) => subModeF f2' (List.drop (len - 1) cs)
             | none => c :: subModeF f2' cs) := rfl
        rw [e1, e2]
        have hcs1 : cs.length ≤ f := by
          simp only [List.length_cons] at h1
          omega
        have hcs2 : cs.length ≤ f2' := by
          simp only [List.length_cons] at h2
          omega
        have hdl : ∀ k, (List.drop k cs).length ≤ cs.length := by
          intro k
          simp [List.length_drop]
        cases hm : matchModeAt (c :: cs) with
        | some x =>
          obtain ⟨n, p, len⟩ := x
          simp only
          exact ih f2' _ (le_trans (hdl _) hcs1) (le_trans (hdl _) hcs2)
        | none =>
          simp only
          rw [ih f2' cs hcs1 hcs2]

lemma subMode_nil : subMode [] = [] := rfl

lemma subMode_cons_some {c : Char} {cs n : Str} {p : Option Str} {len : Nat}
    (h : matchModeAt (c :: cs) = some (n, p, len)) :
    subMode (c :: cs) = subMode (List.drop (len - 1) cs) := by
  have e1 : subMode (c :: cs) =
      (match matchModeAt (c :: cs) with
       | some (n, p, len) => subModeF cs.length (List.drop (len - 1) cs)
       | none => c :: subModeF cs.length cs) := rfl
  rw [e1, h]
  show subModeF cs.length (List.drop (len - 1) cs) = subMode (List.drop (len - 1) cs)
  exact subModeF_pair cs.length (List.drop (len - 1) cs).length (List.drop (len - 1) cs)
    (by simp only [List.length_drop]; omega) (le_refl _)

lemma subMode_cons_none {c : Char} {cs : Str} (h : matchModeAt (c :: cs) = none) :
    subMode (c :: cs) = c :: subMode cs := by
  have e1 : subMode (c :: cs) =
      (match matchModeAt (c :: cs) with
       | some (n, p, len) => subModeF cs.length (List.drop (len - 1) cs)
       | none => c :: subModeF cs.length cs) := rfl
  rw [e1, h]
  rfl

lemma subSignalF_pair : ∀ (f1 f2 : Nat) (s : Str), s.length ≤ f1 → s.length ≤ f2 →
    subSignalF f1 s = subSignalF f2 s := by
  intro f1
  induction f1 with
  | zero =>
    intro f2 s h1 h2
    have hs : s = [] := List.eq_nil_of_length_eq_zero (Nat.le_zero.mp h1)
    subst hs
    cases f2 <;> rfl
  | succ f ih =>
    intro f2 s h1 h2
    cases s with
    | nil => cases f2 <;> rfl
    | cons c cs =>
      cases f2 with
      | zero => exact absurd h2 (by simp)
      | succ f2' =>
        have e1 : subSignalF (f + 1) (c :: cs) =
            (match matchSignalAt (c :: cs) with
             | some (n, len) => subSignalF f (List.drop (len - 1) cs)
             | none => c :: subSignalF f cs) := rfl
        have e2 : subSignalF (f2' + 1) (c :: cs) =
            (match matchSignalAt (c :: cs) with
             | some (n, len) => subSignalF f2' (List.drop (len - 1) cs)
             | none => c :: subSignalF f2' cs) := rfl
        rw [e1, e2]
        have hcs1 : cs.length ≤ f := by
          simp only [List.length_cons] at h1
          omega
        have hcs2 : cs.length ≤ f2' := by
          simp only [List.length_cons] at h2
          omega
        have hdl : ∀ k, (List.drop k cs).length ≤ cs.length := by
          intro k
          simp [List.length_drop]
        cases hm : matchSignalAt (c :: cs) with
        | some x =>
          obtain ⟨n, len⟩ := x
          simp only
          exact ih f2' _ (le_trans (hdl _) hcs1) (le_trans (hdl _) hcs2)
        | none =>
          simp only
          rw [ih f2' cs hcs1 hcs2]

lemma subSignal_nil : subSignal [] = [] := rfl

lemma subSignal_cons_some {c : Char} {cs n : Str} {len : Nat}
    (h : matchSignalAt (c :: cs) = some (n, len)) :
    subSignal (c :: cs) = subSignal (List.drop (len - 1) cs) := by
  have e1 : subSignal (c :: cs) =
      (match matchSignalAt (c :: cs) with
       | some (n, len) => subSignalF cs.length (List.drop (len - 1) cs)
       | none => c :: subSignalF cs.length cs) := rfl
  rw [e1, h]
  show subSignalF cs.length (List.drop (len - 1) cs) = subSignal (List.drop (len - 1) cs)
  exact subSignalF_pair cs.length (List.drop (len - 1) cs).length (List.drop (len - 1) cs)
    (by simp only [List.length_drop]; omega) (le_refl _)

lemma subSignal_cons_none {c : Char} {cs : Str} (h : matchSignalAt (c :: cs) = none) :
    subSignal (c :: cs) = c :: subSignal cs := by
  have e1 : subSignal (c :: cs) =
      (match matchSignalAt (c :: cs) with
       | some (n, len) => subSignalF cs.length (List.drop (len - 1) cs)
       | none => c :: subSignalF cs.length cs) := rfl
  rw [e1, h]
  rfl

lemma findModes_append_noLB {x : Str} (r : Str) (hx : ∀ c ∈ x, ¬ c = '[') :
    findModes (x ++ r) = findModes r := by
  induction x with
  | nil => rfl
  | cons c cs ih =>
    rw [List.cons_append, findModes_cons_none (matchModeAt_cons_ne _ (hx c (by simp)))]
    exact ih (fun d hd => hx d (by simp [hd]))

lemma findModes_no_rb {g : Str} (hg : ∀ c ∈ g, ¬ c = ']') : findModes g = [] := by
  induction g with
  | nil => rfl
  | cons c cs ih =>
    cases hm : matchModeAt (c :: cs) with
    | some x =>
      obtain ⟨n, p, len⟩ := x
      exact absurd (matchModeAt_rbrack hm) (by simpa using hg ']')
    | none =>
      rw [findModes_cons_none hm]
      exact ih (fun d hd => hg d (by simp [hd]))

lemma lcM_cons : lc "[MODE:" = '[' :: lc "MODE:" := rfl

lemma lcS_cons : lc "[SIGNAL:" = '[' :: 'S' :: lc "IGNAL:" := rfl

lemma lcMODE_cons : lc "MODE:" = 'M' :: lc "ODE:" := rfl

lemma drop_pre_append {tl r : Str} {k : Nat} (hk : k = tl.length) :
    List.drop k (tl ++ r) = r := by
  subst hk
  simp

lemma findModes_consume_mode {n : Str} {p : Option Str} (r : Str)
    (h : wfTag (.mode n p) = true) :
    findModes (renderTag (.mode n p) ++ r) = (n, p) :: findModes r := by
  cases p with
  | none =>
    simp only [wfTag, Bool.and_eq_true, Bool.not_eq_eq_eq_not, Bool.not_true] at h
    have hne : n ≠ [] := by
      intro hn
      rw [hn] at h
      simpa using h.1
    have hup : ∀ c ∈ n, isUpperAZ c = true := List.all_eq_true.mp h.2
    have hm := matchModeAt_mode_none r hne hup
    have hsh : renderTag (.mode n none) ++ r = '[' :: (lc "MODE:" ++ n ++ [']'] ++ r) := by
      simp [renderTag, lcM_cons]
    rw [hsh] at hm ⊢
    rw [findModes_cons_some hm]
    have hdrop : List.drop (6 + n.length + 1 - 1) (lc "MODE:" ++ n ++ [']'] ++ r) = r := by
      refine drop_pre_append ?_
      have h5 : (lc "MODE:").length = 5 := rfl
      simp [h5]
      omega
    rw [hdrop]
  | some q =>
    simp only [wfTag, Bool.and_eq_true, Bool.not_eq_eq_eq_not, Bool.not_true] at h
    have hne : n ≠ [] := by
      intro hn
      rw [hn] at h
      simpa using h.1.1
    have hup : ∀ c ∈ n, isUpperAZ c = true := List.all_eq_true.mp h.1.2
    have hqe : q ≠ [] := by
      intro hn
      rw [hn] at h
      simpa using h.2.1
    have hqw : ∀ c ∈ q, isWordChar c = true := List.all_eq_true.mp h.2.2
    have hm := matchModeAt_mode_some r hne hup hqe hqw
    have hsh : renderTag (.mode n (some q)) ++ r =
        '[' :: (lc "MODE:" ++ n ++ ':' :: q ++ [']'] ++ r) := by
      simp [renderTag, lcM_cons]
    rw [hsh] at hm ⊢
    rw [findModes_cons_some hm]
    have hdrop : List.drop (6 + n.length + 1 + q.length + 1 - 1)
        (lc "MODE:" ++ n ++ ':' :: q ++ [']'] ++ r) = r := by
      refine drop_pre_append ?_
      have h5 : (lc "MODE:").length = 5 := rfl
      simp [h5]
      omega
    rw [hdrop]

lemma sigBody_noLB {n : Str} (hup : ∀ c ∈ n, isUpperAZ c = true) :
    ∀ c ∈ 'S' :: (lc "IGNAL:" ++ n ++ [']']), ¬ c = '[' := by
  intro c hc
  rcases List.mem_cons.mp hc with h1 | h2
  · subst h1; decide
  · rcases List.mem_append.mp h2 with h3 | h4
    · rcases List.mem_append.mp h3 with h5 | h6
      · have hz : ∀ c ∈ lc "IGNAL:", ¬ c = '[' := by decide
        exact hz c h5
      · exact ne_of_class (hup c h6) (by decide)
    · simp only [List.mem_singleton] at h4
      subst h4; decide

lemma renderTag_signal_shape {n : Str} (r : Str) :
    renderTag (.signal n) ++ r = '[' :: ('S' :: (lc "IGNAL:" ++ n ++ [']'])) ++ r := by
  simp [renderTag, lcS_cons]

lemma findModes_skip_signal {n : Str} (r : Str) (h : wfTag (.signal n) = true) :
    findModes (renderTag (.signal n) ++ r) = findModes r := by
  simp only [wfTag, Bool.and_eq_true] at h
  have hup : ∀ c ∈ n, isUpperAZ c = true := List.all_eq_true.mp h.2
  rw [renderTag_signal_shape, List.cons_append,
    findModes_cons_none (by rw [List.cons_append]; exact matchModeAt_sig_start _)]
  exact findModes_append_noLB r (sigBody_noLB hup)

lemma findModes_ren (mid : List Item) (g : Str) (hmid : wfItems mid = true)
    (hg : ∀ c ∈ g, ¬ c = ']') :
    findModes (render mid ++ g) = modePairsOf mid := by
  induction mid with
  | nil =>
    rw [show render [] ++ g = g by simp [render]]
    rw [findModes_no_rb hg]
    rfl
  | cons it rest ih =>
    have hw : wfItem it = true ∧ wfItems rest = true := by
      simpa [wfItems] using hmid
    have ihr := ih hw.2
    cases it with
    | txt s =>
      have hs : ∀ c ∈ s, ¬ c = '[' := by
        intro c hc
        have := List.all_eq_true.mp hw.1 c hc
        simp only [Bool.and_eq_true, Bool.not_eq_eq_eq_not, Bool.not_true,
          decide_eq_false_iff_not] at this
        exact this.1
      show findModes (renderItem (.txt s) ++ render rest ++ g) = modePairsOf (.txt s :: rest)
      rw [show renderItem (.txt s) ++ render rest ++ g = s ++ (render rest ++ g) by
        simp [renderItem]]
      rw [findModes_append_noLB _ hs, ihr]
      rfl
    | tag tg =>
      cases tg with
      | mode n p =>
        show findModes (renderItem (.tag (.mode n p)) ++ render rest ++ g) =
          modePairsOf (.tag (.mode n p) :: rest)
        rw [show renderItem (.tag (.mode n p)) ++ render rest ++ g =
            renderTag (.mode n p) ++ (render rest ++ g) by simp [renderItem]]
        rw [findModes_consume_mode _ hw.1, ihr]
        rfl
      | signal n =>
        show findModes (renderItem (.tag (.signal n)) ++ render rest ++ g) =
          modePairsOf (.tag (.signal n) :: rest)
        rw [show renderItem (.tag (.signal n)) ++ render rest ++ g =
            renderTag (.signal n) ++ (render rest ++ g) by simp [renderItem]]
        rw [findModes_skip_signal _ hw.1, ihr]
        rfl

lemma subMode_append_noLB {x : Str} (r : Str) (hx : ∀ c ∈ x, ¬ c = '[') :
    subMode (x ++ r) = x ++ subMode r := by
  induction x with
  | nil => rfl
  | cons c cs ih =>
    rw [List.cons_append, subMode_cons_none (matchModeAt_cons_ne _ (hx c (by simp)))]
    rw [ih (fun d hd => hx d (by simp [hd]))]
    rfl

lemma subMode_no_rb {g : Str} (hg : ∀ c ∈ g, ¬ c = ']') : subMode g = g := by
  induction g with
  | nil => rfl
  | cons c cs ih =>
    cases hm : matchModeAt (c :: cs) with
    | some x =>
      obtain ⟨n, p, len⟩ := x
      exact absurd (matchModeAt_rbrack hm) (by simpa using hg ']')
    | none =>
      rw [subMode_cons_none hm]
      rw [ih (fun d hd => hg d (by simp [hd]))]

lemma subMode_consume_mode {n : Str} {p : Option Str} (r : Str)
    (h : wfTag (.mode n p) = true) :
    subMode (renderTag (.mode n p) ++ r) = subMode r := by
  cases p with
  | none =>
    simp only [wfTag, Bool.and_eq_true, Bool.not_eq_eq_eq_not, Bool.not_true] at h
    have hne : n ≠ [] := by
      intro hn
      rw [hn] at h
      simpa using h.1
    have hup : ∀ c ∈ n, isUpperAZ c = true := List.all_eq_true.mp h.2
    have hm := matchModeAt_mode_none r hne hup
    have hsh : renderTag (.mode n none) ++ r = '[' :: (lc "MODE:" ++ n ++ [']'] ++ r) := by
      simp [renderTag, lcM_cons]
    rw [hsh] at hm ⊢
    rw [subMode_cons_some hm]
    have hdrop : List.drop (6 + n.length + 1 - 1) (lc "MODE:" ++ n ++ [']'] ++ r) = r := by
      refine drop_pre_append ?_
      have h5 : (lc "MODE:").length = 5 := rfl
      simp [h5]
      omega
    rw [hdrop]
  | some q =>
    simp only [wfTag, Bool.and_eq_true, Bool.not_eq_eq_eq_not, Bool.not_true] at h
    have hne : n ≠ [] := by
      intro hn
      rw [hn] at h
      simpa using h.1.1
    have hup : ∀ c ∈ n, isUpperAZ c = true := List.all_eq_true.mp h.1.2
    have hqe : q ≠ [] := by
      intro hn
      rw [hn] at h
      simpa using h.2.1
    have hqw : ∀ c ∈ q, isWordChar c = true := List.all_eq_true.mp h.2.2
    have hm := matchModeAt_mode_some r hne hup hqe hqw
    have hsh : renderTag (.mode n (some q)) ++ r =
        '[' :: (lc "MODE:" ++ n ++ ':' :: q ++ [']'] ++ r) := by
      simp [renderTag, lcM_cons]
    rw [hsh] at hm ⊢
    rw [subMode_cons_some hm]
    have hdrop : List.drop (6 + n.length + 1 + q.length + 1 - 1)
        (lc "MODE:" ++ n ++ ':' :: q ++ [']'] ++ r) = r := by
      refine drop_pre_append ?_
      have h5 : (lc "MODE:").length = 5 := rfl
      simp [h5]
      omega
    rw [hdrop]

lemma subMode_skip_signal {n : Str} (r : Str) (h : wfTag (.signal n) = true) :
    subMode (renderTag (.signal n) ++ r) = renderTag (.signal n) ++ subMode r := by
  simp only [wfTag, Bool.and_eq_true] at h
  have hup : ∀ c ∈ n, isUpperAZ c = true := List.all_eq_true.mp h.2
  rw [renderTag_signal_shape, List.cons_append,
    subMode_cons_none (by rw [List.cons_append]; exact matchModeAt_sig_start _)]
  rw [subMode_append_noLB r (sigBody_noLB hup)]
  rw [renderTag_signal_shape]
  rfl

lemma subMode_ren (mid : List Item) (g : Str) (hmid : wfItems mid = true)
    (hg : ∀ c ∈ g, ¬ c = ']') :
    subMode (render mid ++ g) = render (dropModeTags mid) ++ g := by
  induction mid with
  | nil =>
    rw [show render [] ++ g = g by simp [render]]
    rw [subMode_no_rb hg]
    rfl
  | cons it rest ih =>
    have hw : wfItem it = true ∧ wfItems rest = true := by
      simpa [wfItems] using hmid
    have ihr := ih hw.2
    cases it with
    | txt s =>
      have hs : ∀ c ∈ s, ¬ c = '[' := by
        intro c hc
        have := List.all_eq_true.mp hw.1 c hc
        simp only [Bool.and_eq_true, Bool.not_eq_eq_eq_not, Bool.not_true,
          decide_eq_false_iff_not] at this
        exact this.1
      show subMode (renderItem (.txt s) ++ render rest ++ g) =
        render (dropModeTags (.txt s :: rest)) ++ g
      rw [show renderItem (.txt s) ++ render rest ++ g = s ++ (render rest ++ g) by
        simp [renderItem]]
      rw [subMode_append_noLB _ hs, ihr]
      simp [dropModeTags, isModeTagB, render, renderItem]
    | tag tg =>
      cases tg with
      | mode n p =>
        show subMode (renderItem (.tag (.mode n p)) ++ render rest ++ g) =
          render (dropModeTags (.tag (.mode n p) :: rest)) ++ g
        rw [show renderItem (.tag (.mode n p)) ++ render rest ++ g =
            renderTag (.mode n p) ++ (render rest ++ g) by simp [renderItem]]
        rw [subMode_consume_mode _ hw.1, ihr]
        simp [dropModeTags, isModeTagB]
      | signal n =>
        show subMode (renderItem (.tag (.signal n)) ++ render rest ++ g) =
          render (dropModeTags (.tag (.signal n) :: rest)) ++ g
        rw [show renderItem (.tag (.signal n)) ++ render rest ++ g =
            renderTag (.signal n) ++ (render rest ++ g) by simp [renderItem]]
        rw [subMode_skip_signal _ hw.1, ihr]
        simp [dropModeTags, isModeTagB, render, renderItem]

lemma subSignal_append_noLB {x : Str} (r : Str) (hx : ∀ c ∈ x, ¬ c = '[') :
    subSignal (x ++ r) = x ++ subSignal r := by
  induction x with
  | nil => rfl
  | cons c cs ih =>
    rw [List.cons_append, subSignal_cons_none (matchSignalAt_cons_ne _ (hx c (by simp)))]
    rw [ih (fun d hd => hx d (by simp [hd]))]
    rfl

lemma subSignal_no_rb {g : Str} (hg : ∀ c ∈ g, ¬ c = ']') : subSignal g = g := by
  induction g with
  | nil => rfl
  | cons c cs ih =>
    cases hm : matchSignalAt (c :: cs) with
    | some x =>
      obtain ⟨n, len⟩ := x
      exact absurd (matchSignalAt_rbrack hm) (by simpa using hg ']')
    | none =>
      rw [subSignal_cons_none hm]
      rw [ih (fun d hd => hg d (by simp [hd]))]

lemma subSignal_consume_signal {n : Str} (r : Str) (h : wfTag (.signal n) = true) :
    subSignal (renderTag (.signal n) ++ r) = subSignal r := by
  simp only [wfTag, Bool.and_eq_true, Bool.not_eq_eq_eq_not, Bool.not_true] at h
  have hne : n ≠ [] := by
    intro hn
    rw [hn] at h
    simpa using h.1
  have hup : ∀ c ∈ n, isUpperAZ c = true := List.all_eq_true.mp h.2
  have hm := matchSignalAt_signal r hne hup
  have hsh : renderTag (.signal n) ++ r = '[' :: ('S' :: lc "IGNAL:" ++ n ++ [']'] ++ r) := by
    simp [renderTag, lcS_cons]
  rw [hsh] at hm ⊢
  rw [subSignal_cons_some hm]
  have hdrop : List.drop (8 + n.length + 1 - 1)
      ('S' :: lc "IGNAL:" ++ n ++ [']'] ++ r) = r := by
    refine drop_pre_append ?_
    have h6 : (lc "IGNAL:").length = 6 := rfl
    simp [h6]
    omega
  rw [hdrop]

lemma modeBody_noLB {n : Str} {p : Option Str} (h : wfTag (.mode n p) = true) :
    ∃ tl, renderTag (.mode n p) = '[' :: 'M' :: tl ∧ ∀ c ∈ 'M' :: tl, ¬ c = '[' := by
  have hup : ∀ c ∈ n, isUpperAZ c = true := by
    cases p with
    | none =>
      simp only [wfTag, Bool.and_eq_true] at h
      exact List.all_eq_true.mp h.2
    | some q =>
      simp only [wfTag, Bool.and_eq_true] at h
      exact List.all_eq_true.mp h.1.2
  cases p with
  | none =>
    refine ⟨lc "ODE:" ++ n ++ [']'], by simp [renderTag]; rfl, ?_⟩
    intro c hc
    rcases List.mem_cons.mp hc with h1 | h2
    · subst h1; decide
    · rcases List.mem_append.mp h2 with h3 | h4
      · rcases List.mem_append.mp h3 with h5 | h6
        · have hz : ∀ c ∈ lc "ODE:", ¬ c = '[' := by decide
          exact hz c h5
        · exact ne_of_class (hup c h6) (by decide)
      · simp only [List.mem_singleton] at h4
        subst h4; decide
  | some q =>
    have hqw : ∀ c ∈ q, isWordChar c = true := by
      simp only [wfTag, Bool.and_eq_true] at h
      exact List.all_eq_true.mp h.2.2
    refine ⟨lc "ODE:" ++ n ++ ':' :: q ++ [']'], by simp [renderTag]; rfl, ?_⟩
    intro c hc
    rcases List.mem_cons.mp hc with h1 | h2
    · subst h1; decide
    · rcases List.mem_append.mp h2 with h3 | h4
      · rcases List.mem_append.mp h3 with h5 | h6
        · rcases List.mem_append.mp h5 with h7 | h8
          · have hz : ∀ c ∈ lc "ODE:", ¬ c = '[' := by decide
            exact hz c h7
          · exact ne_of_class (hup c h8) (by decide)
        · rcases List.mem_cons.mp h6 with h7 | h8
          · subst h7; decide
          · exact ne_of_class (hqw c h8) (by decide)
      · simp only [List.mem_singleton] at h4
        subst h4; decide

lemma subSignal_skip_mode {n : Str} {p : Option Str} (r : Str)
    (h : wfTag (.mode n p) = true) :
    subSignal (renderTag (.mode n p) ++ r) = renderTag (.mode n p) ++ subSignal r := by
  obtain ⟨tl, hsh, hno⟩ := modeBody_noLB h
  rw [hsh]
  rw [show ('[' :: 'M' :: tl) ++ r = '[' :: ('M' :: tl) ++ r by rfl]
  rw [List.cons_append, subSignal_cons_none (by
    rw [show ('M' :: tl) ++ r = 'M' :: (tl ++ r) by rfl]
    exact matchSignalAt_mode_start _)]
  rw [subSignal_append_noLB r hno]
  rfl

lemma subSignal_ren (mid : List Item) (g : Str) (hmid : wfItems mid = true)
    (hg : ∀ c ∈ g, ¬ c = ']') :
    subSignal (render mid ++ g) = render (dropSignalTags mid) ++ g := by
  induction mid with
  | nil =>
    rw [show render [] ++ g = g by simp [render]]
    rw [subSignal_no_rb hg]
    rfl
  | cons it rest ih =>
    have hw : wfItem it = true ∧ wfItems rest = true := by
      simpa [wfItems] using hmid
    have ihr := ih hw.2
    cases it with
    | txt s =>
      have hs : ∀ c ∈ s, ¬ c = '[' := by
        intro c hc
        have := List.all_eq_true.mp hw.1 c hc
        simp only [Bool.and_eq_true, Bool.not_eq_eq_eq_not, Bool.not_true,
          decide_eq_false_iff_not] at this
        exact this.1
      show subSignal (renderItem (.txt s) ++ render rest ++ g) =
        render (dropSignalTags (.txt s :: rest)) ++ g
      rw [show renderItem (.txt s) ++ render rest ++ g = s ++ (render rest ++ g) by
        simp [renderItem]]
      rw [subSignal_append_noLB _ hs, ihr]
      simp [dropSignalTags, isSignalTagB, render, renderItem]
    | tag tg =>
      cases tg with
      | mode n p =>
        show subSignal (renderItem (.tag (.mode n p)) ++ render rest ++ g) =
          render (dropSignalTags (.tag (.mode n p) :: rest)) ++ g
        rw [show renderItem (.tag (.mode n p)) ++ render rest ++ g =
            renderTag (.mode n p) ++ (render rest ++ g) by simp [renderItem]]
        rw [subSignal_skip_mode _ hw.1, ihr]
        simp [dropSignalTags, isSignalTagB, render, renderItem]
      | signal n =>
        show subSignal (renderItem (.tag (.signal n)) ++ render rest ++ g) =
          render (dropSignalTags (.tag (.signal n) :: rest)) ++ g
        rw [show renderItem (.tag (.signal n)) ++ render rest ++ g =
            renderTag (.signal n) ++ (render rest ++ g) by simp [renderItem]]
        rw [subSignal_consume_signal _ hw.1, ihr]
        simp [dropSignalTags, isSignalTagB]

lemma wfItems_filter (l : List Item) (q : Item → Bool) (h : wfItems l = true) :
    wfItems (l.filter q) = true := by
  simp only [wfItems, List.all_eq_true] at h ⊢
  intro it hit
  exact h it (List.mem_of_mem_filter hit)

lemma render_dropBoth (mid : List Item) (h : wfItems mid = true) :
    render (dropSignalTags (dropModeTags mid)) = textsOf mid := by
  induction mid with
  | nil => rfl
  | cons it rest ih =>
    have hw : wfItem it = true ∧ wfItems rest = true := by
      simpa [wfItems] using h
    have ihr := ih hw.2
    cases it with
    | txt s =>
      simp only [dropModeTags, dropSignalTags, List.filter_cons] at ihr ⊢
      simp only [isModeTagB, isSignalTagB, Bool.not_false, if_pos]
      simpa [render, renderItem, textsOf] using congrArg (s ++ ·) ihr
    | tag tg =>
      cases tg with
      | mode n p =>
        simp only [dropModeTags, dropSignalTags, List.filter_cons] at ihr ⊢
        simpa [isModeTagB, textsOf] using ihr
      | signal n =>
        simp only [dropModeTags, dropSignalTags, List.filter_cons] at ihr ⊢
        simpa [isModeTagB, isSignalTagB, textsOf] using ihr

lemma txtOk_mem {s : Str} (h : txtOk s = true) :
    ∀ c ∈ s, ¬ c = '[' ∧ ¬ c = ']' := by
  intro c hc
  have := List.all_eq_true.mp h c hc
  simp only [Bool.and_eq_true, Bool.not_eq_eq_eq_not, Bool.not_true,
    decide_eq_false_iff_not] at this
  exact this

lemma subBoth (t : Str) (mid : List Item) (g : Str) (ht : txtOk t = true)
    (hmid : wfItems mid = true) (hg : ∀ c ∈ g, ¬ c = ']') :
    subSignal (subMode (t ++ (render mid ++ g))) = t ++ (textsOf mid ++ g) := by
  have htL : ∀ c ∈ t, ¬ c = '[' := fun c hc => (txtOk_mem ht c hc).1
  rw [subMode_append_noLB _ htL, subMode_ren mid g hmid hg]
  rw [subSignal_append_noLB _ htL,
    subSignal_ren (dropModeTags mid) g (wfItems_filter _ _ hmid) hg]
  rw [show dropSignalTags (dropModeTags mid) = dropSignalTags (dropModeTags mid) from rfl,
    render_dropBoth mid hmid]

lemma hasChar_false_of {x : Char} {s : Str} (h : ∀ c ∈ s, ¬ c = x) :
    hasChar x s = false := by
  cases hc : hasChar x s with
  | false => rfl
  | true => exact absurd (hasChar_iff.mp hc) (by simpa using h x)

lemma hasChar_rb_render (mid : List Item) (h : wfItems mid = true) :
    hasChar ']' (render mid) = mid.any isTagB := by
  induction mid with
  | nil => rfl
  | cons it rest ih =>
    have hw : wfItem it = true ∧ wfItems rest = true := by
      simpa [wfItems] using h
    have ihr := ih hw.2
    cases it with
    | txt s =>
      have hs : hasChar ']' s = false :=
        hasChar_false_of (fun c hc => (txtOk_mem hw.1 c hc).2)
      simp only [render, renderItem, hasChar_append, hs, ihr, List.any_cons]
      simp [isTagB]
    | tag tg =>
      have : hasChar ']' (renderTag tg) = true := hasChar_iff.mpr (rb_mem_renderTag hw.1)
      simp only [render, renderItem, hasChar_append, this, List.any_cons]
      simp [isTagB]

lemma hasChar_rb_ren (t : Str) (mid : List Item) (g : Str) (ht : txtOk t = true)
    (hmid : wfItems mid = true) (hg : ∀ c ∈ g, ¬ c = ']') :
    hasChar ']' (t ++ (render mid ++ g)) = mid.any isTagB := by
  rw [hasChar_append, hasChar_append,
    hasChar_false_of (fun c hc => (txtOk_mem ht c hc).2),
    hasChar_false_of hg, hasChar_rb_render mid hmid]
  simp

lemma txtOk_append {a b : Str} : txtOk (a ++ b) = (txtOk a && txtOk b) := by
  simp [txtOk, List.all_append]

lemma textsOf_txtOk (mid : List Item) (h : wfItems mid = true) :
    txtOk (textsOf mid) = true := by
  induction mid with
  | nil => rfl
  | cons it rest ih =>
    have hw : wfItem it = true ∧ wfItems rest = true := by
      simpa [wfItems] using h
    cases it with
    | txt s =>
      simp only [textsOf, txtOk_append, Bool.and_eq_true]
      exact ⟨hw.1, ih hw.2⟩
    | tag tg => simpa [textsOf] using ih hw.2

/-- The literal byte-string of a signal tag (`"[SIGNAL:CALL]"` etc.). -/
def sigLit (nm : Str) : Str := lc "[SIGNAL:" ++ nm ++ [']']

lemma hasSub_cons {pat : Str} {c : Char} {cs : Str} :
    hasSub pat (c :: cs) = (isPre pat (c :: cs) || hasSub pat cs) := rfl

lemma hasSub_mem {pat s : Str} (h : hasSub pat s = true) : ∀ c ∈ pat, c ∈ s := by
  induction s with
  | nil =>
    simp only [hasSub, List.isEmpty_iff] at h
    subst h
    intro c hc
    exact absurd hc (by simp)
  | cons d ds ih =>
    rw [hasSub_cons, Bool.or_eq_true] at h
    rcases h with h1 | h2
    · obtain ⟨r, hr⟩ := isPre_iff.mp h1
      intro c hc
      rw [hr]
      exact List.mem_append_left _ hc
    · intro c hc
      exact List.mem_cons_of_mem _ (ih h2 c hc)

lemma sig_isPre_txt {nm : Str} {c : Char} (cs : Str) (h : ¬ c = '[') :
    isPre (sigLit nm) (c :: cs) = false := by
  rw [show sigLit nm = '[' :: ('S' :: lc "IGNAL:" ++ nm ++ [']']) by simp [sigLit, lcS_cons]]
  simp only [isPre, Bool.and_eq_true]
  cases hd : decide ('[' = c) with
  | false => rfl
  | true => exact absurd (of_decide_eq_true hd).symm h

lemma hasSub_skip_noLB {nm x : Str} (r : Str) (hx : ∀ c ∈ x, ¬ c = '[') :
    hasSub (sigLit nm) (x ++ r) = hasSub (sigLit nm) r := by
  induction x with
  | nil => rfl
  | cons c cs ih =>
    rw [List.cons_append, hasSub_cons, sig_isPre_txt _ (hx c (by simp))]
    simpa using ih (fun d hd => hx d (by simp [hd]))

lemma hasSub_final {nm g : Str} (hg : ∀ c ∈ g, ¬ c = ']') :
    hasSub (sigLit nm) g = false := by
  cases hs : hasSub (sigLit nm) g with
  | false => rfl
  | true =>
    have : ']' ∈ g := hasSub_mem hs ']' (by simp [sigLit])
    exact absurd this (by simpa using hg ']')

lemma isPre_append_same (p : Str) {a b : Str} :
    isPre (p ++ a) (p ++ b) = isPre a b := by
  induction p with
  | nil => rfl
  | cons c cs ih => simp [isPre, ih]

lemma names_pre {nm m : Str} (rest : Str) (hnm : ∀ c ∈ nm, ¬ c = ']')
    (hm : ∀ c ∈ m, ¬ c = ']') :
    isPre (nm ++ [']']) (m ++ ']' :: rest) = decide (nm = m) := by
  induction nm generalizing m with
  | nil =>
    cases m with
    | nil => simp [isPre]
    | cons c m2 =>
      rw [List.nil_append, List.cons_append]
      simp only [isPre]
      cases hd : decide (']' = c) with
      | false => simp
      | true => exact absurd (of_decide_eq_true hd).symm (hm c (by simp))
  | cons a nm2 ih =>
    cases m with
    | nil =>
      rw [List.cons_append, List.nil_append]
      simp only [isPre]
      cases hd : decide (a = ']') with
      | false => simp
      | true => exact absurd (of_decide_eq_true hd) (hnm a (by simp))
    | cons c m2 =>
      rw [List.cons_append, List.cons_append]
      simp only [isPre]
      by_cases hac : a = c
      · subst hac
        rw [ih (fun d hd => hnm d (by simp [hd])) (fun d hd => hm d (by simp [hd]))]
        simp
      · simp [hac]

lemma sig_isPre_mode {nm n : Str} {p : Option Str} (r : Str) :
    isPre (sigLit nm) (renderTag (.mode n p) ++ r) = false := by
  have hshape : ∃ tl, renderTag (.mode n p) ++ r = '[' :: 'M' :: tl := by
    cases p with
    | none =>
      exact ⟨lc "ODE:" ++ n ++ [']'] ++ r, by simp [renderTag, lcM_cons, lcMODE_cons]⟩
    | some q =>
      exact ⟨lc "ODE:" ++ n ++ ':' :: q ++ [']'] ++ r, by
        simp [renderTag, lcM_cons, lcMODE_cons]⟩
  obtain ⟨tl, htl⟩ := hshape
  rw [htl, show sigLit nm = '[' :: 'S' :: (lc "IGNAL:" ++ nm ++ [']']) by
    simp [sigLit, lcS_cons]]
  simp [isPre]

lemma hasSub_skip_mode {nm n : Str} {p : Option Str} (r : Str)
    (h : wfTag (.mode n p) = true) :
    hasSub (sigLit nm) (renderTag (.mode n p) ++ r) = hasSub (sigLit nm) r := by
  obtain ⟨tl, hsh, hno⟩ := modeBody_noLB h
  have hpre := @sig_isPre_mode nm n p r
  rw [hsh] at hpre ⊢
  rw [show ('[' :: 'M' :: tl) ++ r = '[' :: (('M' :: tl) ++ r) by rfl] at hpre ⊢
  rw [hasSub_cons, hpre]
  simpa using hasSub_skip_noLB r hno

lemma sig_isPre_signal {nm m : Str} (r : Str) (hnm : ∀ c ∈ nm, isUpperAZ c = true)
    (hm : ∀ c ∈ m, isUpperAZ c = true) :
    isPre (sigLit nm) (renderTag (.signal m) ++ r) = decide (nm = m) := by
  have h1 : sigLit nm = lc "[SIGNAL:" ++ (nm ++ [']']) := by simp [sigLit]
  have h2 : renderTag (.signal m) ++ r = lc "[SIGNAL:" ++ (m ++ ']' :: r) := by
    simp [renderTag]
  rw [h1, h2, isPre_append_same]
  exact names_pre r (fun c hc => ne_of_class (hnm c hc) (by decide))
    (fun c hc => ne_of_class (hm c hc) (by decide))

lemma hasSub_at_signal {nm m : Str} (r : Str) (hnm : ∀ c ∈ nm, isUpperAZ c = true)
    (h : wfTag (.signal m) = true) :
    hasSub (sigLit nm) (renderTag (.signal m) ++ r) =
      (decide (nm = m) || hasSub (sigLit nm) r) := by
  simp only [wfTag, Bool.and_eq_true] at h
  have hm : ∀ c ∈ m, isUpperAZ c = true := List.all_eq_true.mp h.2
  have hpre := sig_isPre_signal r hnm hm
  have hshape : renderTag (.signal m) ++ r =
      '[' :: (('S' :: (lc "IGNAL:" ++ m ++ [']'])) ++ r) := renderTag_signal_shape r
  rw [hshape] at hpre ⊢
  rw [hasSub_cons, hpre]
  congr 1
  exact hasSub_skip_noLB r (sigBody_noLB hm)

lemma hasSub_sig_ren (t : Str) (mid : List Item) (g : Str) (nm : Str)
    (ht : txtOk t = true) (hmid : wfItems mid = true) (hg : ∀ c ∈ g, ¬ c = ']')
    (hnm : ∀ c ∈ nm, isUpperAZ c = true) :
    hasSub (sigLit nm) (t ++ (render mid ++ g)) = hasSignalTag nm mid := by
  rw [hasSub_skip_noLB _ (fun c hc => (txtOk_mem ht c hc).1)]
  induction mid with
  | nil =>
    rw [show render [] ++ g = g by simp [render]]
    rw [hasSub_final hg]
    rfl
  | cons it rest ih =>
    have hw : wfItem it = true ∧ wfItems rest = true := by
      simpa [wfItems] using hmid
    have ihr := ih hw.2
    cases it with
    | txt s =>
      rw [show render (.txt s :: rest) ++ g = s ++ (render rest ++ g) by
        simp [render, renderItem]]
      rw [hasSub_skip_noLB _ (fun c hc => (txtOk_mem hw.1 c hc).1), ihr]
      simp [hasSignalTag]
    | tag tg =>
      cases tg with
      | mode n p =>
        rw [show render (.tag (.mode n p) :: rest) ++ g =
            renderTag (.mode n p) ++ (render rest ++ g) by simp [render, renderItem]]
        rw [hasSub_skip_mode _ hw.1, ihr]
        simp [hasSignalTag]
      | signal m =>
        rw [show render (.tag (.signal m) :: rest) ++ g =
            renderTag (.signal m) ++ (render rest ++ g) by simp [render, renderItem]]
        rw [hasSub_at_signal _ hnm hw.1, ihr]
        simp only [hasSignalTag, List.any_cons]
        by_cases he : nm = m
        · subst he
          simp
        · simp only [decide_eq_false he]
          have : ((.tag (.signal m) : Item) = .tag (.signal nm)) = False := by
            simp [Ne.symm he]
          simp [this]

lemma wfItems_cons {it : Item} {l : List Item} :
    wfItems (it :: l) = true ↔ wfItem it = true ∧ wfItems l = true := by
  simp [wfItems]

lemma pend_facts {g : Str} {rest : List Item} (h : pendTag g rest)
    (hw : wfItems rest = true) :
    (∀ c ∈ g, ¬ c = ']') ∧ (g = [] ∨ ∃ tl, g = '[' :: tl) := by
  rcases h with rfl | ⟨tg, rest2, d, rfl, hd, hr⟩
  · exact ⟨by simp, Or.inl rfl⟩
  · have hwt : wfTag tg = true := (wfItems_cons.mp hw).1
    obtain ⟨body, hb, hbrb, tl, htl⟩ := renderTag_body hwt
    rw [hb] at hr
    have hpre : ∃ a, body = g ++ a := by
      rcases List.append_eq_append_iff.mp hr.symm with ⟨x, hx1, hx2⟩ | ⟨y, hy1, hy2⟩
      · exact ⟨x, hx1⟩
      · cases y with
        | nil => exact ⟨[], by simpa using hy1.symm⟩
        | cons a as =>
          exfalso
          cases d with
          | nil => exact hd rfl
          | cons e es =>
            have := congrArg List.length hy2
            simp [List.length_append] at this
    obtain ⟨a, ha⟩ := hpre
    constructor
    · intro c hc
      exact hbrb c (by rw [ha]; exact List.mem_append_left _ hc)
    · cases g with
      | nil => exact Or.inl rfl
      | cons x xs =>
        refine Or.inr ⟨xs, ?_⟩
        have h2 : ('[' : Char) = x := by
          have h3 := htl.symm.trans ha
          simp only [List.cons_append, List.cons.injEq] at h3
          exact h3.1
        rw [← h2]

lemma stream_split (rest : List Item) (p q : Str) (hw : wfItems rest = true)
    (hpq : p ++ q = render rest) :
    ∃ mid g rest2, wfItems mid = true ∧ wfItems rest2 = true ∧
      p = render mid ++ g ∧ g ++ q = render rest2 ∧ pendTag g rest2 ∧
      textsOf rest = textsOf mid ++ textsOf rest2 ∧
      modePairsOf rest = modePairsOf mid ++ modePairsOf rest2 ∧
      (∀ n, hasSignalTag n rest = (hasSignalTag n mid || hasSignalTag n rest2)) := by
  induction rest generalizing p with
  | nil =>
    simp only [render] at hpq
    have hp : p = [] := by
      cases p with
      | nil => rfl
      | cons a as => exact absurd hpq (by simp)
    have hq : q = [] := by
      rw [hp] at hpq
      simpa using hpq
    subst hp
    subst hq
    exact ⟨[], [], [], rfl, rfl, rfl, rfl, Or.inl rfl, rfl, rfl, fun n => rfl⟩
  | cons it rest2 ih =>
    obtain ⟨hwi, hwr⟩ := wfItems_cons.mp hw
    rw [render] at hpq
    rcases List.append_eq_append_iff.mp hpq with ⟨x, hx1, hx2⟩ | ⟨y, hy1, hy2⟩
    · -- p ends inside (or exactly at the end of) the first item
      cases hx : x with
      | nil =>
        subst hx
        have hp : p = renderItem it := by simpa using hx1.symm
        have hq : q = render rest2 := by simpa using hx2
        refine ⟨[it], [], rest2, ?_, hwr, ?_, by simpa using hq, Or.inl rfl, ?_, ?_, ?_⟩
        · simpa [wfItems] using hwi
        · simp [render, hp]
        · cases it <;> simp [textsOf]
        · cases it with
          | txt s => simp [modePairsOf]
          | tag tg => cases tg <;> simp [modePairsOf]
        · intro n
          simp [hasSignalTag]
      | cons a as =>
        subst hx
        cases it with
        | txt s =>
          have hs : s = p ++ (a :: as) := hx1
          refine ⟨[.txt p], [], .txt (a :: as) :: rest2, ?_, ?_, by simp [render, renderItem],
            by simpa [render, renderItem] using hx2, Or.inl rfl, ?_, ?_, ?_⟩
          · have : txtOk p = true := by
              have := hwi
              simp only [wfItem, hs, txtOk_append, Bool.and_eq_true] at this
              exact this.1
            simpa [wfItems, wfItem] using this
          · have h2 : txtOk (a :: as) = true := by
              have := hwi
              simp only [wfItem, hs, txtOk_append, Bool.and_eq_true] at this
              exact this.2
            rw [wfItems_cons]
            exact ⟨h2, hwr⟩
          · simp [textsOf, hs]
          · simp [modePairsOf]
          · intro n
            simp [hasSignalTag]
        | tag tg =>
          refine ⟨[], p, .tag tg :: rest2, rfl, hw, by simp [render], by
            rw [render]; exact hpq, ?_, by simp [textsOf], by simp [modePairsOf], ?_⟩
          · cases hp : p with
            | nil => exact Or.inl rfl
            | cons b bs =>
              refine Or.inr ⟨tg, rest2, a :: as, rfl, by simp, ?_⟩
              rw [← hp]
              exact hx1
          · intro n
            simp [hasSignalTag]
    · -- the first item is completely inside p
      obtain ⟨mid2, g, rest3, hw2, hw3, hsp, hsq, hpd, hT, hM, hS⟩ :=
        ih y hwr hy2.symm
      refine ⟨it :: mid2, g, rest3, wfItems_cons.mpr ⟨hwi, hw2⟩, hw3, ?_, hsq, hpd, ?_, ?_, ?_⟩
      · rw [hy1, hsp, render, List.append_assoc]
      · cases it <;> simp [textsOf, hT]
      · cases it with
        | txt s => simpa [modePairsOf] using hM
        | tag tg => cases tg <;> simp [modePairsOf, hM]
      · intro n
        cases it with
        | txt s => simpa [hasSignalTag] using hS n
        | tag tg =>
          have := hS n
          simp only [hasSignalTag, List.any_cons] at this ⊢
          rw [this]
          simp [Bool.or_assoc]

lemma textOf_append (a b : List PEv) : textOf (a ++ b) = textOf a ++ textOf b := by
  induction a with
  | nil => rfl
  | cons e es ih => cases e <;> simp [textOf, ih]

lemma modeCallsOf_append (a b : List PEv) :
    modeCallsOf (a ++ b) = modeCallsOf a ++ modeCallsOf b := by
  induction a with
  | nil => rfl
  | cons e es ih => cases e <;> simp [modeCallsOf, ih]

lemma hasCallEv_append (a b : List PEv) :
    hasCallEv (a ++ b) = (hasCallEv a || hasCallEv b) := by
  simp [hasCallEv]

lemma hasTimerEv_append (a b : List PEv) :
    hasTimerEv (a ++ b) = (hasTimerEv a || hasTimerEv b) := by
  simp [hasTimerEv]

lemma modeDispatch_shape (m : Str × Option Str) :
    modeDispatch m = [] ∨ ∃ a b, modeDispatch m = [.modeCall a b] := by
  unfold modeDispatch
  split_ifs <;> first
    | exact Or.inl rfl
    | exact Or.inr ⟨_, _, rfl⟩

lemma modeDispatchAll_append (xs ys : List (Str × Option Str)) :
    modeDispatchAll (xs ++ ys) = modeDispatchAll xs ++ modeDispatchAll ys := by
  induction xs with
  | nil => rfl
  | cons m ms ih => simp [modeDispatchAll, ih]

lemma dispatch_no_text (ms : List (Str × Option Str)) :
    textOf (modeDispatchAll ms) = [] ∧ hasCallEv (modeDispatchAll ms) = false ∧
      hasTimerEv (modeDispatchAll ms) = false := by
  induction ms with
  | nil => exact ⟨rfl, rfl, rfl⟩
  | cons m ms ih =>
    obtain ⟨ih1, ih2, ih3⟩ := ih
    rcases modeDispatch_shape m with h | ⟨a, b, h⟩
    · simp only [modeDispatchAll, h, List.nil_append]
      exact ⟨ih1, ih2, ih3⟩
    · simp only [modeDispatchAll, h, List.cons_append, List.nil_append]
      refine ⟨?_, ?_, ?_⟩
      · simpa [textOf] using ih1
      · simpa [hasCallEv] using ih2
      · simpa [hasTimerEv] using ih3

lemma render_noTags (mid : List Item) (h : mid.any isTagB = false) :
    render mid = textsOf mid := by
  induction mid with
  | nil => rfl
  | cons it rest ih =>
    simp only [List.any_cons, Bool.or_eq_false_iff] at h
    cases it with
    | txt s => simp [render, renderItem, textsOf, ih h.2]
    | tag tg => exact absurd h.1 (by simp [isTagB])

lemma modePairs_noTags (mid : List Item) (h : mid.any isTagB = false) :
    modePairsOf mid = [] := by
  induction mid with
  | nil => rfl
  | cons it rest ih =>
    simp only [List.any_cons, Bool.or_eq_false_iff] at h
    cases it with
    | txt s => simpa [modePairsOf] using ih h.2
    | tag tg => exact absurd h.1 (by simp [isTagB])

lemma hasSignalTag_noTags (n : Str) (mid : List Item) (h : mid.any isTagB = false) :
    hasSignalTag n mid = false := by
  induction mid with
  | nil => rfl
  | cons it rest ih =>
    simp only [List.any_cons, Bool.or_eq_false_iff] at h
    cases it with
    | txt s => simpa [hasSignalTag] using ih h.2
    | tag tg => exact absurd h.1 (by simp [isTagB])

lemma render_nil_props (rest : List Item) (hw : wfItems rest = true)
    (h : render rest = []) :
    textsOf rest = [] ∧ modePairsOf rest = [] ∧ ∀ n, hasSignalTag n rest = false := by
  induction rest with
  | nil => exact ⟨rfl, rfl, fun n => rfl⟩
  | cons it rest2 ih =>
    obtain ⟨hwi, hwr⟩ := wfItems_cons.mp hw
    cases it with
    | txt s =>
      rw [render, renderItem] at h
      have hs : s = [] := by
        cases s with
        | nil => rfl
        | cons a as => exact absurd h (by simp)
      have hr : render rest2 = [] := by
        rw [hs] at h
        simpa using h
      obtain ⟨h1, h2, h3⟩ := ih hwr hr
      refine ⟨by simp [textsOf, hs, h1], by simpa [modePairsOf] using h2, fun n => by
        simpa [hasSignalTag] using h3 n⟩
    | tag tg =>
      rw [render, renderItem] at h
      rw [List.append_eq_nil] at h
      exact absurd h.1 (renderTag_ne_nil hwi)

lemma runChunks_cons (buf : Str) (c : Str) (cs : List Str) :
    runChunks buf (c :: cs) = (feedChunk buf c).1 ++ runChunks (feedChunk buf c).2 cs := rfl

lemma feedChunk_ne (buf c : Str) (hc : ¬ c = []) :
    feedChunk buf c =
      ((scanStep (buf ++ c)).1 ++ (flushStep (scanStep (buf ++ c)).2).1,
        (flushStep (scanStep (buf ++ c)).2).2) := by
  rw [feedChunk, isEmpty_false_of_ne hc]
  simp

lemma scan_spec (t : Str) (mid : List Item) (g2 : Str) (ht : txtOk t = true)
    (hwm : wfItems mid = true) (hg2 : ∀ x ∈ g2, ¬ x = ']') :
    ∃ evs, scanStep (t ++ (render mid ++ g2)) = (evs, t ++ (textsOf mid ++ g2)) ∧
      textOf evs = [] ∧
      modeCallsOf evs = modeCallsOf (modeDispatchAll (modePairsOf mid)) ∧
      hasCallEv evs = hasSignalTag (lc "CALL") mid ∧
      hasTimerEv evs = hasSignalTag (lc "TIMER") mid := by
  have htL : ∀ x ∈ t, ¬ x = '[' := fun x hx => (txtOk_mem ht x hx).1
  have hrb : hasChar ']' (t ++ (render mid ++ g2)) = mid.any isTagB :=
    hasChar_rb_ren t mid g2 ht hwm hg2
  by_cases htag : mid.any isTagB = true
  · have hfm : findModes (t ++ (render mid ++ g2)) = modePairsOf mid := by
      rw [findModes_append_noLB _ htL]
      exact findModes_ren mid g2 hwm hg2
    have hcall : hasSub (lc "[SIGNAL:CALL]") (t ++ (render mid ++ g2)) =
        hasSignalTag (lc "CALL") mid := by
      rw [show lc "[SIGNAL:CALL]" = sigLit (lc "CALL") from rfl]
      exact hasSub_sig_ren t mid g2 (lc "CALL") ht hwm hg2 (by decide)
    have htimer : hasSub (lc "[SIGNAL:TIMER]") (t ++ (render mid ++ g2)) =
        hasSignalTag (lc "TIMER") mid := by
      rw [show lc "[SIGNAL:TIMER]" = sigLit (lc "TIMER") from rfl]
      exact hasSub_sig_ren t mid g2 (lc "TIMER") ht hwm hg2 (by decide)
    have hsub : subSignal (subMode (t ++ (render mid ++ g2))) = t ++ (textsOf mid ++ g2) :=
      subBoth t mid g2 ht hwm hg2
    refine ⟨modeDispatchAll (modePairsOf mid)
        ++ (if hasSignalTag (lc "CALL") mid then [PEv.sigCall] else [])
        ++ (if hasSignalTag (lc "TIMER") mid then [PEv.sigTimer] else []),
      ?_, ?_, ?_, ?_, ?_⟩
    · rw [scanStep, if_pos (by rw [hrb]; exact htag), hfm, hcall, htimer, hsub]
    · obtain ⟨hd1, -, -⟩ := dispatch_no_text (modePairsOf mid)
      rw [textOf_append, textOf_append, hd1]
      cases hasSignalTag (lc "CALL") mid <;> cases hasSignalTag (lc "TIMER") mid <;>
        simp [textOf]
    · rw [modeCallsOf_append, modeCallsOf_append]
      cases hasSignalTag (lc "CALL") mid <;> cases hasSignalTag (lc "TIMER") mid <;>
        simp [modeCallsOf]
    · obtain ⟨-, hd2, -⟩ := dispatch_no_text (modePairsOf mid)
      rw [hasCallEv_append, hasCallEv_append, hd2]
      cases hasSignalTag (lc "CALL") mid <;> cases hasSignalTag (lc "TIMER") mid <;>
        simp [hasCallEv]
    · obtain ⟨-, -, hd3⟩ := dispatch_no_text (modePairsOf mid)
      rw [hasTimerEv_append, hasTimerEv_append, hd3]
      cases hasSignalTag (lc "CALL") mid <;> cases hasSignalTag (lc "TIMER") mid <;>
        simp [hasTimerEv]
  · have htag2 : mid.any isTagB = false := by
      cases h : mid.any isTagB with
      | false => rfl
      | true => exact absurd h htag
    have hnt : render mid = textsOf mid := render_noTags mid htag2
    refine ⟨[], ?_, rfl, ?_, ?_, ?_⟩
    · rw [scanStep, if_neg (by rw [hrb, htag2]; simp), hnt]
    · rw [modePairs_noTags mid htag2]
      rfl
    · rw [hasSignalTag_noTags _ mid htag2]
      rfl
    · rw [hasSignalTag_noTags _ mid htag2]
      rfl

lemma flush_spec_nil (b : Str) (hb : txtOk b = true) :
    flushStep b = (if b.isEmpty then [] else [PEv.text b], []) := by
  have hlb : hasChar '[' b = false :=
    hasChar_false_of (fun c hc => (txtOk_mem hb c hc).1)
  cases hbe : b.isEmpty with
  | true =>
    have : b = [] := by
      cases b with
      | nil => rfl
      | cons x xs => exact absurd hbe (by simp [List.isEmpty])
    subst this
    rfl
  | false =>
    rw [flushStep, hbe, hlb]
    simp

lemma flush_spec_pend (b g2 : Str) (tl : Str) (hg2 : g2 = '[' :: tl) :
    flushStep (b ++ g2) = ([], b ++ g2) := by
  have : hasChar '[' (b ++ g2) = true := by
    rw [hasChar_append, hg2]
    simp [hasChar]
  rw [flushStep, this]
  simp

lemma runChunks_spec (chunks : List Str) :
    ∀ (rest : List Item) (t g : Str),
      wfItems rest = true → txtOk t = true → pendTag g rest →
      g ++ concatChunks chunks = render rest →
      textOf (runChunks (t ++ g) chunks) = t ++ textsOf rest ∧
      modeCallsOf (runChunks (t ++ g) chunks) = modeCallsOf (specModeCalls rest) ∧
      hasCallEv (runChunks (t ++ g) chunks) = hasSignalTag (lc "CALL") rest ∧
      hasTimerEv (runChunks (t ++ g) chunks) = hasSignalTag (lc "TIMER") rest := by
  induction chunks with
  | nil =>
    intro rest t g hw ht hpend hcat
    rw [show concatChunks [] = [] from rfl, List.append_nil] at hcat
    have hg : g = [] := by
      rcases hpend with rfl | ⟨tg, rest2, d, hrest, hd, hr⟩
      · rfl
      · exfalso
        rw [hrest, render, renderItem] at hcat
        have hlen := congrArg List.length hcat
        have hlen2 := congrArg List.length hr
        rw [List.length_append] at hlen
        rw [List.length_append] at hlen2
        cases d with
        | nil => exact hd rfl
        | cons e es =>
          rw [List.length_cons] at hlen2
          omega
    subst hg
    have hren : render rest = [] := hcat.symm
    obtain ⟨h1, h2, h3⟩ := render_nil_props rest hw hren
    rw [List.append_nil]
    have hrun : runChunks t [] = if t.isEmpty then [] else [PEv.text t] := rfl
    refine ⟨?_, ?_, ?_, ?_⟩
    · rw [hrun, h1, List.append_nil]
      cases t with
      | nil => rfl
      | cons x xs => simp [textOf]
    · rw [hrun, specModeCalls, h2]
      cases t with
      | nil => rfl
      | cons x xs => simp [modeCallsOf, modeDispatchAll]
    · rw [hrun, h3]
      cases t with
      | nil => rfl
      | cons x xs => simp [hasCallEv]
    · rw [hrun, h3]
      cases t with
      | nil => rfl
      | cons x xs => simp [hasTimerEv]
  | cons c cs ih =>
    intro rest t g hw ht hpend hcat
    by_cases hc : c = []
    · subst hc
      have hrun : runChunks (t ++ g) ([] :: cs) = runChunks (t ++ g) cs := by
        rw [runChunks_cons]
        rfl
      rw [hrun]
      refine ih rest t g hw ht hpend ?_
      simpa [concatChunks] using hcat
    · have hsplit : ((g ++ c) ++ concatChunks cs) = render rest := by
        rw [List.append_assoc]
        simpa [concatChunks] using hcat
      obtain ⟨mid, g2, rest2, hwm, hwr2, hp, hq, hpend2, hT, hM, hS⟩ :=
        stream_split rest (g ++ c) (concatChunks cs) hw hsplit
      obtain ⟨hg2rb, hg2hd⟩ := pend_facts hpend2 hwr2
      have hbuf : (t ++ g) ++ c = t ++ (render mid ++ g2) := by
        rw [List.append_assoc, hp]
      obtain ⟨evs, hscan, hstx, hsmc, hsca, hsti⟩ := scan_spec t mid g2 ht hwm hg2rb
      have htx2 : txtOk (t ++ textsOf mid) = true := by
        rw [txtOk_append, ht, textsOf_txtOk mid hwm]
        rfl
      rw [runChunks_cons, feedChunk_ne _ _ hc, hbuf, hscan]
      simp only
      rcases hg2hd with rfl | ⟨tl, rfl⟩
      · -- the pending partial tag is empty: the buffer flushes
        have hb2 : t ++ (textsOf mid ++ []) = t ++ textsOf mid := by simp
        rw [hb2, flush_spec_nil _ htx2]
        simp only
        have hrec := ih rest2 [] [] hwr2 rfl (Or.inl rfl) (by simpa using hq)
        rw [show (([] : Str) ++ ([] : Str)) = ([] : Str) from rfl] at hrec
        obtain ⟨hr1, hr2, hr3, hr4⟩ := hrec
        refine ⟨?_, ?_, ?_, ?_⟩
        · rw [textOf_append, textOf_append, hstx, hr1, hT]
          cases hbe : (t ++ textsOf mid).isEmpty with
          | true =>
            have : t ++ textsOf mid = [] := by
              cases hx : t ++ textsOf mid with
              | nil => rfl
              | cons a as => rw [hx] at hbe; exact absurd hbe (by simp [List.isEmpty])
            rw [List.append_eq_nil] at this
            simp [textOf, this.1, this.2]
          | false => simp [textOf]
        · rw [modeCallsOf_append, modeCallsOf_append, hsmc, hr2, specModeCalls,
            specModeCalls, hM, modeDispatchAll_append, modeCallsOf_append]
          have : modeCallsOf (if (t ++ textsOf mid).isEmpty = true then []
              else [PEv.text (t ++ textsOf mid)]) = [] := by
            cases (t ++ textsOf mid).isEmpty <;> simp [modeCallsOf]
          rw [this]
          simp
        · rw [hasCallEv_append, hasCallEv_append, hsca, hr3, hS]
          have : hasCallEv (if (t ++ textsOf mid).isEmpty = true then []
              else [PEv.text (t ++ textsOf mid)]) = false := by
            cases (t ++ textsOf mid).isEmpty <;> simp [hasCallEv]
          rw [this]
          simp
        · rw [hasTimerEv_append, hasTimerEv_append, hsti, hr4, hS]
          have : hasTimerEv (if (t ++ textsOf mid).isEmpty = true then []
              else [PEv.text (t ++ textsOf mid)]) = false := by
            cases (t ++ textsOf mid).isEmpty <;> simp [hasTimerEv]
          rw [this]
          simp
      · -- a partial tag is pending: nothing flushes
        have hb2 : t ++ (textsOf mid ++ '[' :: tl) = (t ++ textsOf mid) ++ '[' :: tl := by
          rw [List.append_assoc]
        rw [hb2, flush_spec_pend _ _ tl rfl]
        simp only
        have hrec := ih rest2 (t ++ textsOf mid) ('[' :: tl) hwr2 htx2 hpend2 hq
        obtain ⟨hr1, hr2, hr3, hr4⟩ := hrec
        refine ⟨?_, ?_, ?_, ?_⟩
        · rw [textOf_append, textOf_append, hstx, hr1, hT]
          simp [textOf]
        · rw [modeCallsOf_append, modeCallsOf_append, hsmc, hr2, specModeCalls,
            specModeCalls, hM, modeDispatchAll_append, modeCallsOf_append]
          simp [modeCallsOf]
        · rw [hasCallEv_append, hasCallEv_append, hsca, hr3, hS]
          simp [hasCallEv]
        · rw [hasTimerEv_append, hasTimerEv_append, hsti, hr4, hS]
          simp [hasTimerEv]

end ParserLemmas

section TimerLemmas

/-- Inductive invariant: every sleeping countdown task is the one the
    `sos_task` variable currently references. -/
def SosInv (s : SessionSt) : Prop :=
  ∀ i st, s.sosTasks.get? i = some st → isSleeping st = true → s.sosRef = some i

lemma get?_some_lt {α : Type} {l : List α} {i : Nat} {a : α}
    (h : l.get? i = some a) : i < l.length := by
  by_contra hn
  rw [List.get?_eq_none.mpr (Nat.le_of_not_lt hn)] at h
  exact Option.noConfusion h

/-- `cancelSos` either does nothing (no referenced pending task) or cancels
    exactly the referenced sleeping task and emits `timer_cancelled`. -/
lemma cancelSos_cases (s : SessionSt) :
    (cancelSos s = s ∧
      ∀ i r, s.sosRef = some i → s.sosTasks.get? i ≠ some (.sleeping r)) ∨
    (∃ i r, s.sosRef = some i ∧ s.sosTasks.get? i = some (.sleeping r) ∧
      cancelSos s = { s with sosTasks := s.sosTasks.set i .cancelled,
                             msgs := s.msgs ++ [.timerCancelled] }) := by
  cases hr : s.sosRef with
  | none =>
    refine Or.inl ⟨by unfold cancelSos; rw [hr], ?_⟩
    intro i r hri
    exact absurd hri (by simp)
  | some i =>
    have hred : cancelSos s =
        (match s.sosTasks.get? i with
         | some (CdStatus.sleeping _) =>
           { s with sosTasks := s.sosTasks.set i CdStatus.cancelled,
                    msgs := s.msgs ++ [OutMsg.timerCancelled] }
         | _ => s) := by
      unfold cancelSos
      rw [hr]
    cases hg : s.sosTasks.get? i with
    | none =>
      refine Or.inl ⟨by rw [hred, hg], ?_⟩
      intro j r hrj
      injection hrj with hh
      subst hh
      rw [hg]
      simp
    | some st =>
      cases st with
      | sleeping r =>
        exact Or.inr ⟨i, r, rfl, hg, by rw [hred, hg, hr]⟩
      | doneFired =>
        refine Or.inl ⟨by rw [hred, hg], ?_⟩
        intro j r hrj
        injection hrj with hh
        subst hh
        rw [hg]
        simp
      | doneQuiet =>
        refine Or.inl ⟨by rw [hred, hg], ?_⟩
        intro j r hrj
        injection hrj with hh
        subst hh
        rw [hg]
        simp
      | cancelled =>
        refine Or.inl ⟨by rw [hred, hg], ?_⟩
        intro j r hrj
        injection hrj with hh
        subst hh
        rw [hg]
        simp

lemma cancelSos_fields (s : SessionSt) :
    (cancelSos s).sosRef = s.sosRef ∧ (cancelSos s).timerCancelled = s.timerCancelled ∧
      (cancelSos s).watchdog = s.watchdog ∧ (cancelSos s).callActive = s.callActive := by
  rcases cancelSos_cases s with ⟨he, -⟩ | ⟨i, r, -, -, he⟩ <;> rw [he] <;>
    exact ⟨rfl, rfl, rfl, rfl⟩

lemma cancelSos_noSleep {s : SessionSt} (h : SosInv s) :
    ∀ i st, (cancelSos s).sosTasks.get? i = some st → isSleeping st = false := by
  intro i st hi
  cases hs : isSleeping st with
  | false => rfl
  | true =>
    exfalso
    rcases cancelSos_cases s with ⟨he, hnone⟩ | ⟨j, r, hr, hg, he⟩
    · rw [he] at hi
      exact hnone i (by
        cases st with
        | sleeping r2 => exact r2
        | doneFired => exact Bool.noConfusion hs
        | doneQuiet => exact Bool.noConfusion hs
        | cancelled => exact Bool.noConfusion hs) (h i st hi hs) (by
        cases st with
        | sleeping r2 => exact hi
        | doneFired => exact Bool.noConfusion hs
        | doneQuiet => exact Bool.noConfusion hs
        | cancelled => exact Bool.noConfusion hs)
    · rw [he] at hi
      simp only at hi
      by_cases hij : i = j
      · subst hij
        rw [List.get?_set_eq_of_lt _ (get?_some_lt hg)] at hi
        injection hi with hst
        subst hst
        exact Bool.noConfusion hs
      · rw [List.get?_set_ne _ _ (fun hh => hij hh.symm)] at hi
        have := h i st hi hs
        rw [hr] at this
        injection this with hh
        exact hij hh.symm

lemma noSleep_inv {s : SessionSt}
    (h : ∀ i st, s.sosTasks.get? i = some st → isSleeping st = false) : SosInv s := by
  intro i st hi hs
  rw [h i st hi] at hs
  exact Bool.noConfusion hs

lemma cancelSos_inv {s : SessionSt} (h : SosInv s) : SosInv (cancelSos s) :=
  noSleep_inv (cancelSos_noSleep h)

/-- The per-task status transformation of one tick, as a function of the
    `timer_cancelled` flag. -/
def statusTick (tc : Bool) : CdStatus → CdStatus
  | .sleeping 0 => if tc then .doneQuiet else .doneFired
  | .sleeping (r + 1) => .sleeping r
  | st => st

lemma triggerCall_fields (s : SessionSt) :
    (triggerCall s).sosTasks = s.sosTasks ∧ (triggerCall s).sosRef = s.sosRef ∧
      (triggerCall s).timerCancelled = s.timerCancelled ∧
      (triggerCall s).watchdog = s.watchdog := by
  unfold triggerCall
  cases s.callActive <;> exact ⟨rfl, rfl, rfl, rfl⟩

lemma tickTask_char (st : CdStatus) (s : SessionSt) :
    (tickTask st s).1 = statusTick s.timerCancelled st ∧
      (tickTask st s).2.timerCancelled = s.timerCancelled ∧
      (tickTask st s).2.sosRef = s.sosRef ∧
      (tickTask st s).2.watchdog = s.watchdog := by
  cases st with
  | sleeping r =>
    cases r with
    | zero =>
      cases htc : s.timerCancelled with
      | true => simp [tickTask, statusTick, htc]
      | false =>
        obtain ⟨h1, h2, h3, h4⟩ := triggerCall_fields s
        simp [tickTask, statusTick, htc, h2, h3, h4]
    | succ r => simp [tickTask, statusTick]
  | doneFired => simp [tickTask, statusTick]
  | doneQuiet => simp [tickTask, statusTick]
  | cancelled => simp [tickTask, statusTick]

lemma tickAll_char (ts : List CdStatus) (s : SessionSt) :
    (tickAll ts s).1 = ts.map (statusTick s.timerCancelled) ∧
      (tickAll ts s).2.timerCancelled = s.timerCancelled ∧
      (tickAll ts s).2.sosRef = s.sosRef ∧
      (tickAll ts s).2.watchdog = s.watchdog := by
  induction ts generalizing s with
  | nil => exact ⟨rfl, rfl, rfl, rfl⟩
  | cons t ts ih =>
    obtain ⟨h1, h2, h3, h4⟩ := tickTask_char t s
    obtain ⟨i1, i2, i3, i4⟩ := ih (tickTask t s).2
    have e : tickAll (t :: ts) s =
        ((tickTask t s).1 :: (tickAll ts (tickTask t s).2).1,
          (tickAll ts (tickTask t s).2).2) := rfl
    rw [e]
    refine ⟨?_, ?_, ?_, ?_⟩
    · simp only [List.map_cons]
      rw [h1, i1, h2]
    · rw [i2, h2]
    · rw [i3, h3]
    · rw [i4, h4]

lemma tickWatchdog_fields (s : SessionSt) :
    (tickWatchdog s).sosTasks = s.sosTasks ∧ (tickWatchdog s).sosRef = s.sosRef ∧
      (tickWatchdog s).timerCancelled = s.timerCancelled := by
  unfold tickWatchdog
  cases hw : s.watchdog with
  | none => exact ⟨rfl, rfl, rfl⟩
  | some r =>
    cases r with
    | zero =>
      obtain ⟨h1, h2, h3, -⟩ := triggerCall_fields s
      by_cases hc : (!s.timerCancelled && !s.callActive) = true
      · simp only [hc, if_true]
        exact ⟨h1, h2, h3⟩
      · have hc2 : (!s.timerCancelled && !s.callActive) = false := by
          cases hx : (!s.timerCancelled && !s.callActive)
          · rfl
          · exact absurd hx hc
        simp only [hc2, Bool.false_eq_true, if_false]
        refine ⟨?_, ?_, ?_⟩ <;> simp
    | succ r => exact ⟨rfl, rfl, rfl⟩

lemma statusTick_sleeping {tc : Bool} {st st' : CdStatus}
    (h : statusTick tc st = st') (hs : isSleeping st' = true) :
    isSleeping st = true := by
  cases st with
  | sleeping r => rfl
  | doneFired => rw [← h] at hs; exact hs
  | doneQuiet => rw [← h] at hs; exact hs
  | cancelled => rw [← h] at hs; exact hs

lemma step_tick_parts (s : SessionSt) :
    (step .tick s).sosTasks = s.sosTasks.map (statusTick s.timerCancelled) ∧
      (step .tick s).sosRef = s.sosRef := by
  obtain ⟨t1, t2, t3, t4⟩ := tickAll_char s.sosTasks s
  have e : step .tick s =
      tickWatchdog { (tickAll s.sosTasks s).2 with sosTasks := (tickAll s.sosTasks s).1 } :=
    rfl
  obtain ⟨w1, w2, w3⟩ :=
    tickWatchdog_fields { (tickAll s.sosTasks s).2 with sosTasks := (tickAll s.sosTasks s).1 }
  rw [e, w1, w2]
  exact ⟨t1, t3⟩

lemma step_inv (e : SEv) (s : SessionSt) (h : SosInv s) : SosInv (step e s) := by
  cases e with
  | signalTimer =>
    show SosInv (if (cancelSos s).timerCancelled then cancelSos s
      else armCountdown (cancelSos s) 5)
    by_cases htc : (cancelSos s).timerCancelled = true
    · simp only [htc, if_true]
      exact cancelSos_inv h
    · have htc2 : (cancelSos s).timerCancelled = false := by
        cases hx : (cancelSos s).timerCancelled
        · rfl
        · exact absurd hx htc
      rw [htc2]
      simp only [Bool.false_eq_true, if_false]
      intro i st hi hs
      unfold armCountdown at hi ⊢
      simp only at hi ⊢
      by_cases hlt : i < (cancelSos s).sosTasks.length
      · rw [List.get?_append hlt] at hi
        rw [cancelSos_noSleep h i st hi] at hs
        exact Bool.noConfusion hs
      · have hlt2 : i < (cancelSos s).sosTasks.length + 1 := by
          have := get?_some_lt hi
          simpa using this
        have hieq : i = (cancelSos s).sosTasks.length := by omega
        subst hieq
        rfl
  | cancelCmd =>
    refine cancelSos_inv ?_
    intro i st hi hs
    exact h i st hi hs
  | voiceTranscript =>
    refine cancelSos_inv ?_
    intro i st hi hs
    exact h i st hi hs
  | textMessage hasCancel =>
    cases hasCancel with
    | true =>
      show SosInv (cancelSos { s with watchdog := some 10, timerCancelled := true })
      refine cancelSos_inv ?_
      intro i st hi hs
      exact h i st hi hs
    | false =>
      intro i st hi hs
      exact h i st hi hs
  | dequeueUtterance =>
    intro i st hi hs
    exact h i st hi hs
  | sosCmd =>
    intro i st hi hs
    obtain ⟨h1, h2, -, -⟩ := triggerCall_fields s
    show (triggerCall s).sosRef = some i
    rw [h2]
    rw [show (step .sosCmd s).sosTasks = (triggerCall s).sosTasks from rfl, h1] at hi
    exact h i st hi hs
  | tick =>
    intro i st hi hs
    obtain ⟨p1, p2⟩ := step_tick_parts s
    rw [p1, List.get?_map] at hi
    rw [p2]
    cases hold : s.sosTasks.get? i with
    | none =>
      rw [hold] at hi
      exact Option.noConfusion hi
    | some oldSt =>
      have hst : statusTick s.timerCancelled oldSt = st := by
        rw [hold] at hi
        simpa using hi
      exact h i oldSt hold (statusTick_sleeping hst hs)

lemma reachable_inv {s : SessionSt} (h : Reachable s) : SosInv s := by
  induction h with
  | init =>
    intro i st hi hs
    simp [SessionSt.init] at hi
  | step e hr ih => exact step_inv e _ ih

lemma noSleep_filter {l : List CdStatus}
    (h : ∀ j st, l.get? j = some st → isSleeping st = false) :
    l.filter isSleeping = [] := by
  induction l with
  | nil => rfl
  | cons x xs ih =>
    have hx : isSleeping x = false := h 0 x rfl
    rw [List.filter_cons, hx]
    simp only [Bool.false_eq_true, if_false]
    exact ih (fun j st hj => h (j + 1) st (by simpa using hj))

lemma count_le_one {l : List CdStatus}
    (h : ∀ i j sti stj, l.get? i = some sti → l.get? j = some stj →
      isSleeping sti = true → isSleeping stj = true → i = j) :
    (l.filter isSleeping).length ≤ 1 := by
  induction l with
  | nil => simp
  | cons x xs ih =>
    rw [List.filter_cons]
    cases hx : isSleeping x with
    | false =>
      simp only [Bool.false_eq_true, if_false]
      refine ih ?_
      intro i j sti stj hi hj hsi hsj
      have := h (i + 1) (j + 1) sti stj (by simpa using hi) (by simpa using hj) hsi hsj
      omega
    | true =>
      simp only [if_true]
      have hxs : xs.filter isSleeping = [] := by
        refine noSleep_filter ?_
        intro j st hj
        cases hs : isSleeping st with
        | false => rfl
        | true =>
          have := h 0 (j + 1) x st rfl (by simpa using hj) hx hs
          exact absurd this (by omega)
      rw [hxs]
      simp

lemma cancelSos_preserves_cancelled {s : SessionSt} {i : Nat}
    (h : s.sosTasks.get? i = some .cancelled) :
    (cancelSos s).sosTasks.get? i = some .cancelled := by
  rcases cancelSos_cases s with ⟨he, -⟩ | ⟨j, r, hr, hg, he⟩
  · rw [he]
    exact h
  · rw [he]
    simp only
    by_cases hij : i = j
    · subst hij
      rw [h] at hg
      exact absurd hg (by simp)
    · rw [List.get?_set_ne _ _ (fun hh => hij hh.symm)]
      exact h

lemma step_preserves_cancelled (e : SEv) (s : SessionSt) (i : Nat)
    (h : s.sosTasks.get? i = some .cancelled) :
    (step e s).sosTasks.get? i = some .cancelled := by
  cases e with
  | signalTimer =>
    show (if (cancelSos s).timerCancelled then cancelSos s
      else armCountdown (cancelSos s) 5).sosTasks.get? i = some .cancelled
    have hc := cancelSos_preserves_cancelled h
    by_cases htc : (cancelSos s).timerCancelled = true
    · rw [htc]
      simpa using hc
    · have htc2 : (cancelSos s).timerCancelled = false := by
        cases hx : (cancelSos s).timerCancelled
        · rfl
        · exact absurd hx htc
      rw [htc2]
      simp only [Bool.false_eq_true, if_false]
      unfold armCountdown
      simp only
      rw [List.get?_append (get?_some_lt hc)]
      exact hc
  | cancelCmd => exact cancelSos_preserves_cancelled (s := { s with timerCancelled := true }) h
  | voiceTranscript => exact cancelSos_preserves_cancelled (s := { s with watchdog := some 10 }) h
  | textMessage hasCancel =>
    cases hasCancel with
    | true =>
      exact cancelSos_preserves_cancelled
        (s := { s with watchdog := some 10, timerCancelled := true }) h
    | false => exact h
  | dequeueUtterance => exact h
  | sosCmd =>
    obtain ⟨h1, -, -, -⟩ := triggerCall_fields s
    show (triggerCall s).sosTasks.get? i = some .cancelled
    rw [h1]
    exact h
  | tick =>
    obtain ⟨p1, -⟩ := step_tick_parts s
    rw [p1, List.get?_map, h]
    rfl

lemma reachFrom_preserves_cancelled {s s2 : SessionSt} {i : Nat}
    (hr : ReachFrom s s2) (h : s.sosTasks.get? i = some .cancelled) :
    s2.sosTasks.get? i = some .cancelled := by
  induction hr with
  | refl => exact h
  | step e hr2 ih => exact step_preserves_cancelled e _ i (ih h)

lemma cancelSos_cancels {s : SessionSt} {i : Nat} {r : Nat}
    (hinv : SosInv s) (hi : s.sosTasks.get? i = some (.sleeping r)) :
    (cancelSos s).sosTasks.get? i = some .cancelled ∧
      (cancelSos s).msgs = s.msgs ++ [.timerCancelled] := by
  have href : s.sosRef = some i := hinv i _ hi rfl
  rcases cancelSos_cases s with ⟨-, hnone⟩ | ⟨j, r2, hr2, hg2, he⟩
  · exact absurd hi (hnone i r href)
  · have hij : j = i := by
      rw [href] at hr2
      injection hr2 with hh
      exact hh.symm
    subst hij
    rw [he]
    refine ⟨?_, rfl⟩
    simp only
    rw [List.get?_set_eq_of_lt _ (get?_some_lt hi)]

end TimerLemmas

section ClaimTimers

/-- Claim C3 (confirmed): in every reachable session state at most one
    escalation countdown is pending, and handling a `SIGNAL_TIMER` event
    cancels the previously pending countdown task (so arming a new one
    replaces it rather than adding to it). -/
theorem C3_at_most_one_countdown :
    ∀ s : SessionSt, Reachable s →
      pendingCount s ≤ 1 ∧
      (∀ i r, s.sosTasks.get? i = some (.sleeping r) →
        (step .signalTimer s).sosTasks.get? i = some .cancelled) := by
  intro s hs
  have hinv := reachable_inv hs
  constructor
  · refine count_le_one ?_
    intro i j sti stj hi hj hsi hsj
    have h1 := hinv i sti hi hsi
    have h2 := hinv j stj hj hsj
    rw [h1] at h2
    exact Option.some.inj h2
  · intro i r hi
    have hc := (cancelSos_cancels hinv hi).1
    show (if (cancelSos s).timerCancelled then cancelSos s
      else armCountdown (cancelSos s) 5).sosTasks.get? i = some .cancelled
    by_cases htc : (cancelSos s).timerCancelled = true
    · rw [htc]
      simpa using hc
    · have htc2 : (cancelSos s).timerCancelled = false := by
        cases hx : (cancelSos s).timerCancelled
        · rfl
        · exact absurd hx htc
      rw [htc2]
      simp only [Bool.false_eq_true, if_false]
      unfold armCountdown
      simp only
      rw [List.get?_append (get?_some_lt hc)]
      exact hc

/-- Witness for C3 at a concrete reachable state (one countdown armed). -/
theorem C3_witness :
    pendingCount (step .signalTimer SessionSt.init) ≤ 1 ∧
      (step .signalTimer (step .signalTimer SessionSt.init)).sosTasks.get? 0 =
        some .cancelled :=
  ⟨(C3_at_most_one_countdown _ (Reachable.step _ Reachable.init)).1,
    (C3_at_most_one_countdown _ (Reachable.step _ Reachable.init)).2 0 5 (by decide)⟩

/-- Claim C4 (confirmed): a cancel command arriving while an escalation
    countdown is still sleeping cancels it — `timer_cancelled` is sent to
    the client, the task's status becomes `cancelled`, and in every state
    reachable afterwards it is still `cancelled` (in particular it never
    reaches `doneFired`, the status of a countdown that invoked the
    `trigger_call` escalation callback). -/
theorem C4_cancel_never_fires :
    ∀ (s : SessionSt) (i r : Nat), Reachable s →
      s.sosTasks.get? i = some (.sleeping r) →
      (step .cancelCmd s).sosTasks.get? i = some .cancelled ∧
      (step .cancelCmd s).msgs = s.msgs ++ [.timerCancelled] ∧
      ∀ s2, ReachFrom (step .cancelCmd s) s2 →
        s2.sosTasks.get? i = some .cancelled := by
  intro s i r hs hi
  have hinv := reachable_inv hs
  have hinv2 : SosInv { s with timerCancelled := true } := fun j st hj hsj => hinv j st hj hsj
  have hc := cancelSos_cancels (s := { s with timerCancelled := true }) hinv2 hi
  exact ⟨hc.1, hc.2, fun s2 hr2 => reachFrom_preserves_cancelled hr2 hc.1⟩

/-- Witness for C4: arm a countdown, cancel it, let time pass — the task
    stays cancelled and the `timer_cancelled` message was sent. -/
theorem C4_witness :
    (step .cancelCmd (step .signalTimer SessionSt.init)).sosTasks.get? 0 =
        some .cancelled ∧
      (step .cancelCmd (step .signalTimer SessionSt.init)).msgs =
        (step .signalTimer SessionSt.init).msgs ++ [.timerCancelled] ∧
      (step .tick (step .cancelCmd (step .signalTimer SessionSt.init))).sosTasks.get? 0 =
        some .cancelled := by
  obtain ⟨h1, h2, h3⟩ := C4_cancel_never_fires (step .signalTimer SessionSt.init) 0 5
    (Reachable.step _ Reachable.init) (by decide)
  exact ⟨h1, h2, h3 _ (ReachFrom.step .tick (ReachFrom.refl _))⟩

/-- Claim C5 (counterexample): with an escalation countdown pending, the
    arrival of a new finalized voice utterance alone does NOT leave the
    countdown pending — `on_transcript` cancels `sos_task`
    (`main.py` 214–215). -/
theorem C5_counterexample :
    (step .signalTimer SessionSt.init).sosTasks.get? 0 = some (.sleeping 5) ∧
      (step .voiceTranscript (step .signalTimer SessionSt.init)).sosTasks.get? 0 =
        some .cancelled := by
  exact ⟨by decide, by decide⟩

/-- Claim C5 (corrected): the arrival of a new finalized voice utterance
    resets the inactivity watchdog (cancel then re-arm at 10s) AND cancels
    any pending escalation countdown, sending `timer_cancelled`; a text
    message, by contrast, cancels the countdown only when it contains
    "cancel". -/
theorem C5_transcript_cancels_countdown :
    ∀ (s : SessionSt) (i r : Nat), Reachable s →
      s.sosTasks.get? i = some (.sleeping r) →
      (step .voiceTranscript s).watchdog = some 10 ∧
      (step .voiceTranscript s).sosTasks.get? i = some .cancelled ∧
      (step .voiceTranscript s).msgs = s.msgs ++ [.timerCancelled] ∧
      (step (.textMessage false) s).sosTasks.get? i = some (.sleeping r) := by
  intro s i r hs hi
  have hinv := reachable_inv hs
  have hinv2 : SosInv { s with watchdog := some 10 } := fun j st hj hsj => hinv j st hj hsj
  have hc := cancelSos_cancels (s := { s with watchdog := some 10 }) hinv2 hi
  refine ⟨?_, hc.1, hc.2, hi⟩
  have hf := (cancelSos_fields { s with watchdog := some 10 }).2.2.1
  show (cancelSos { s with watchdog := some 10 }).watchdog = some 10
  rw [hf]

/-- Witness for C5's corrected statement at a concrete state. -/
theorem C5_witness :
    (step .voiceTranscript (step .signalTimer SessionSt.init)).watchdog = some 10 ∧
      (step .voiceTranscript (step .signalTimer SessionSt.init)).sosTasks.get? 0 =
        some .cancelled := by
  obtain ⟨h1, h2, -, -⟩ := C5_transcript_cancels_countdown
    (step .signalTimer SessionSt.init) 0 5 (Reachable.step _ Reachable.init) (by decide)
  exact ⟨h1, h2⟩

end ClaimTimers

section ClaimMode

/-- Claim C6 (confirmed): `set_mode` is idempotent — when the requested
    `(mode, persona)` pair equals the current one the state is returned
    unchanged (no field is mutated and `mode_changed` is not raised), and
    on an actual change the voice profile becomes the fixed
    `(mode, persona)` table lookup and `mode_changed` is set. -/
theorem C6_set_mode_idempotent :
    ∀ (s : CalyxState) (m : Str) (p : Option Str),
      (s.mode = m ∧ s.decoy_persona = p → setMode s m p = s) ∧
      (¬ (s.mode = m ∧ s.decoy_persona = p) →
        (setMode s m p).mode = m ∧ (setMode s m p).decoy_persona = p ∧
        (setMode s m p).voice_profile = profileTable m p ∧
        (setMode s m p).mode_changed = true) := by
  intro s m p
  constructor
  · rintro ⟨h1, h2⟩
    unfold setMode
    rw [if_neg]
    push_neg
    exact ⟨h1, h2⟩
  · intro hne
    have hcond : s.mode ≠ m ∨ s.decoy_persona ≠ p := by
      by_contra hc
      push_neg at hc
      exact hne ⟨hc.1, hc.2⟩
    unfold setMode profileTable
    rw [if_pos hcond]
    split_ifs <;> simp_all

/-- Witness for C6: re-applying the current pair is the identity, and a real
    transition installs the table profile (computed at `CALM`). -/
theorem C6_witness :
    setMode (CalyxState.init 0) (lc "DEFAULT") none = CalyxState.init 0 ∧
      (setMode (CalyxState.init 0) (lc "CALM") none).voice_profile =
        profileTable (lc "CALM") none ∧
      setMode (setMode (CalyxState.init 0) (lc "CALM") none) (lc "CALM") none =
        setMode (CalyxState.init 0) (lc "CALM") none :=
  ⟨(C6_set_mode_idempotent (CalyxState.init 0) (lc "DEFAULT") none).1 (by decide),
    ((C6_set_mode_idempotent (CalyxState.init 0) (lc "CALM") none).2 (by decide)).2.2.1,
    (C6_set_mode_idempotent (setMode (CalyxState.init 0) (lc "CALM") none)
      (lc "CALM") none).1 (by decide)⟩

end ClaimMode

section ClaimFilter

/-- Claim C7 (counterexample): a segment consisting entirely of a denylisted
    phrase reaches the synthesis request UNFILTERED — `genAudioText` sends
    `"help is on the way"` verbatim, and that sent text still matches
    denylist pattern 5 at its head. -/
theorem C7_counterexample :
    genAudioText (lc "help is on the way") = some (lc "help is on the way") ∧
      pat5 (lc "help is on the way") = some 18 := by
  exact ⟨by decide, by decide⟩

/-- Claim C7 (corrected): before synthesis each segment passes through the
    denylist filter, whose stripped-and-normalised residual is sent whenever
    it is non-empty — but when stripping empties the segment the filter
    falls back to the ORIGINAL text (`return filtered if filtered else
    text`), so a segment consisting entirely of a denylisted phrase is sent
    to synthesis unchanged. -/
theorem C7_filter_empty_fallback :
    ∀ t : Str,
      (filterResidual t ≠ [] → filterHallucinations t = filterResidual t) ∧
      (filterResidual t = [] → filterHallucinations t = t) ∧
      ((stripWs t).isEmpty = false → 2 ≤ (genAudioClean t).length →
        filterResidual (genAudioClean t) = [] →
        genAudioText t = some (genAudioClean t)) := by
  intro t
  refine ⟨?_, ?_, ?_⟩
  · intro h
    unfold filterHallucinations
    rw [if_neg (by simpa [List.isEmpty_iff] using h)]
  · intro h
    unfold filterHallucinations
    rw [if_pos (by simpa [List.isEmpty_iff] using h)]
  · intro h0 h2 hres
    have hfe : filterHallucinations (genAudioClean t) = genAudioClean t := by
      unfold filterHallucinations
      rw [if_pos (by simpa [List.isEmpty_iff] using hres)]
    unfold genAudioText
    rw [h0]
    simp only [Bool.false_eq_true, if_false]
    show (if (genAudioClean t).length < 2 then none
      else if (filterHallucinations (genAudioClean t)).length < 2 then none
      else some (filterHallucinations (genAudioClean t))) = some (genAudioClean t)
    rw [hfe, if_neg (by omega), if_neg (by omega)]

/-- Witness for C7's corrected statement at the all-denylist segment. -/
theorem C7_witness :
    filterHallucinations (lc "help is on the way") = lc "help is on the way" ∧
      genAudioText (lc "help is on the way") =
        some (genAudioClean (lc "help is on the way")) :=
  ⟨(C7_filter_empty_fallback (lc "help is on the way")).2.1 (by decide),
    (C7_filter_empty_fallback (lc "help is on the way")).2.2 (by decide) (by decide)
      (by decide)⟩

end ClaimFilter

section ClaimGroq

lemma applyPEv_messages (st : CalyxState) (ctx : ConversationContext) (e : PEv) :
    ((applyPEv st ctx e).2.1).messages = ctx.messages := by
  cases e with
  | modeCall m p =>
    by_cases hc : m = lc "COVERT"
    · simp [applyPEv, hc]
    · simp [applyPEv, hc]
  | sigCall => rfl
  | sigTimer => rfl
  | text s => rfl

lemma applyPEvs_messages :
    ∀ (evs : List PEv) (st : CalyxState) (ctx : ConversationContext),
      ((applyPEvs st ctx evs).2.1).messages = ctx.messages := by
  intro evs
  induction evs with
  | nil => intro st ctx; rfl
  | cons e es ih =>
    intro st ctx
    show ((applyPEvs (applyPEv st ctx e).1 (applyPEv st ctx e).2.1 es).2.1).messages =
      ctx.messages
    rw [ih, applyPEv_messages]

/-- Claim C8 (counterexample): when the completion call raises, the fixed
    fallback is yielded but NOT appended to the conversation memory — the
    memory ends with the user message only. -/
theorem C8_counterexample :
    (getStreamingResponse (lc "SYS") [] (CalyxState.init 0) ConversationContext.init
        (lc "User") (lc "someone is following me") false [] true).1 =
      [GOut.txt fallbackReply] ∧
      (getStreamingResponse (lc "SYS") [] (CalyxState.init 0) ConversationContext.init
        (lc "User") (lc "someone is following me") false [] true).2.1 =
      [(lc "system", lc "SYS"), (lc "user", lc "someone is following me")] := by
  exact ⟨by decide, by decide⟩

/-- Claim C8 (corrected): on any LLM completion failure the turn yields the
    fixed safe fallback reply and returns normally (the exception is
    swallowed, the session continues), but the fallback is NOT appended to
    the conversation history: the memory holds exactly the pre-call state
    with the user message appended, and no assistant message is added to
    the conversation context either. -/
theorem C8_failure_yields_fallback_without_append :
    ∀ (sysPrompt : Str) (mem : List (Str × Str)) (st : CalyxState)
      (ctx : ConversationContext) (userName userInput : Str) (isTextMode : Bool)
      (chunks : List Str),
      (∃ pre, (getStreamingResponse sysPrompt mem st ctx userName userInput
          isTextMode chunks true).1 = pre ++ [GOut.txt fallbackReply]) ∧
      (getStreamingResponse sysPrompt mem st ctx userName userInput
          isTextMode chunks true).2.1 =
        truncMemory ((if mem.isEmpty then [(lc "system", sysPrompt)] else mem) ++
          [(lc "user", if st.is_phone_call then lc "[CONTACT]: " ++ userInput
            else (if isTextMode then lc "[TEXT] " else []) ++ userInput)]) ∧
      (getStreamingResponse sysPrompt mem st ctx userName userInput
          isTextMode chunks true).2.2.2.messages =
        (if st.is_phone_call then ctx.messages
          else ctx.messages ++ [(lc "user", userInput)]) := by
  intro sysPrompt mem st ctx userName userInput isTextMode chunks
  refine ⟨⟨_, rfl⟩, rfl, ?_⟩
  show ((applyPEvs st
      (if st.is_phone_call then
        (if hasSub (lowerStr SAFE_WORD) (lowerStr userInput) then
          { ctx with safe_word_verified := true } else ctx)
       else addMessage
        (if hasSub (lowerStr SAFE_WORD) (lowerStr userInput) then
          { ctx with safe_word_verified := true } else ctx)
        (lc "user") userInput)
      (runChunksNoFinal [] chunks)).2.1).messages = _
  rw [applyPEvs_messages]
  by_cases hp : st.is_phone_call = true
  · rw [if_pos hp, if_pos hp]
    by_cases hs : hasSub (lowerStr SAFE_WORD) (lowerStr userInput) = true
    · rw [if_pos hs]
    · rw [if_neg hs]
  · rw [if_neg hp, if_neg hp]
    by_cases hs : hasSub (lowerStr SAFE_WORD) (lowerStr userInput) = true
    · rw [if_pos hs]
      rfl
    · rw [if_neg hs]
      rfl

/-- Witness for C8's corrected statement at a concrete failing turn. -/
theorem C8_witness :
    (getStreamingResponse (lc "SYS") [] (CalyxState.init 0) ConversationContext.init
        (lc "User") (lc "hello") false [lc "I hear "] true).2.1 =
      truncMemory (([(lc "system", lc "SYS")] : List (Str × Str)) ++
        [(lc "user", lc "hello")]) := by
  have h := (C8_failure_yields_fallback_without_append (lc "SYS") [] (CalyxState.init 0)
    ConversationContext.init (lc "User") (lc "hello") false [lc "I hear "]).2.1
  simpa using h

end ClaimGroq

section ClaimParse

/-- Claim C1 (counterexample): in `x[SIGNAL:TIMER][SIGNAL:TIMER]y`, delivered
    as one fragment, two `[SIGNAL:TIMER]` occurrences are scanned in a single
    buffer pass and the `found_modes` membership test coalesces them into ONE
    Signal event; the Signal event is also emitted before the Text event. -/
theorem C1_counterexample :
    concatChunks [lc "x[SIGNAL:TIMER][SIGNAL:TIMER]y"] =
      render [Item.txt (lc "x"), Item.tag (Tag.signal (lc "TIMER")),
        Item.tag (Tag.signal (lc "TIMER")), Item.txt (lc "y")] ∧
    wfItems [Item.txt (lc "x"), Item.tag (Tag.signal (lc "TIMER")),
        Item.tag (Tag.signal (lc "TIMER")), Item.txt (lc "y")] = true ∧
    parseStream [lc "x[SIGNAL:TIMER][SIGNAL:TIMER]y"] =
      [PEv.sigTimer, PEv.text (lc "xy")] := by
  exact ⟨by decide, by decide, by decide⟩

/-- Claim C1 (corrected): for every fragmentation of a well-formed tagged
    stream, the parser's Text events concatenate to exactly the tag-free
    content, the `set_mode` calls are one per mode-tag occurrence in
    left-to-right order, and a Signal event of each kind (CALL / TIMER) is
    emitted iff a tag of that kind occurs — but duplicate identical signal
    tags scanned in the same buffer pass coalesce, so signal events are
    per-kind-per-scan rather than per occurrence, and a signal event may
    precede the Text of the same pass. -/
theorem C1_parser_per_tag :
    ∀ (items : List Item) (chunks : List Str),
      wfItems items = true → concatChunks chunks = render items →
      textOf (parseStream chunks) = textsOf items ∧
      modeCallsOf (parseStream chunks) = modeCallsOf (specModeCalls items) ∧
      hasCallEv (parseStream chunks) = hasSignalTag (lc "CALL") items ∧
      hasTimerEv (parseStream chunks) = hasSignalTag (lc "TIMER") items := by
  intro items chunks hw hcat
  have h := runChunks_spec chunks items [] [] hw rfl (Or.inl rfl) (by simpa using hcat)
  simpa [parseStream] using h

/-- Witness for C1's corrected statement: the split-tag example, with a mode
    tag divided across the fragment boundary. -/
theorem C1_witness :
    wfItems [Item.txt (lc "I will "), Item.tag (Tag.mode (lc "CALM") none),
      Item.txt (lc "let us breathe.")] = true ∧
    concatChunks [lc "I will [MOD", lc "E:CALM]let us breathe."] =
      render [Item.txt (lc "I will "), Item.tag (Tag.mode (lc "CALM") none),
        Item.txt (lc "let us breathe.")] ∧
    textOf (parseStream [lc "I will [MOD", lc "E:CALM]let us breathe."]) =
      textsOf [Item.txt (lc "I will "), Item.tag (Tag.mode (lc "CALM") none),
        Item.txt (lc "let us breathe.")] ∧
    modeCallsOf (parseStream [lc "I will [MOD", lc "E:CALM]let us breathe."]) =
      modeCallsOf (specModeCalls [Item.txt (lc "I will "),
        Item.tag (Tag.mode (lc "CALM") none), Item.txt (lc "let us breathe.")]) := by
  have h := C1_parser_per_tag
    [Item.txt (lc "I will "), Item.tag (Tag.mode (lc "CALM") none),
      Item.txt (lc "let us breathe.")]
    [lc "I will [MOD", lc "E:CALM]let us breathe."] (by decide) (by decide)
  exact ⟨by decide, by decide, h.1, h.2.1⟩

/-- Claim C2 (counterexample): the Signal event sequence is NOT a function of
    the concatenation alone — `[SIGNAL:TIMER][SIGNAL:TIMER]` delivered as one
    fragment yields one Signal event, while the same characters split at the
    tag boundary yield two. -/
theorem C2_counterexample :
    concatChunks [lc "[SIGNAL:TIMER][SIGNAL:TIMER]"] =
      concatChunks [lc "[SIGNAL:TIMER]", lc "[SIGNAL:TIMER]"] ∧
    parseStream [lc "[SIGNAL:TIMER][SIGNAL:TIMER]"] = [PEv.sigTimer] ∧
    parseStream [lc "[SIGNAL:TIMER]", lc "[SIGNAL:TIMER]"] =
      [PEv.sigTimer, PEv.sigTimer] := by
  exact ⟨by decide, by decide, by decide⟩

/-- Claim C2 (corrected): over well-formed tagged streams, the concatenated
    Text content, the `set_mode` call sequence, and the presence of each
    signal kind (CALL / TIMER) are fragmentation-invariant — functions of the
    concatenation only — but the exact sequence of Signal events is not,
    since duplicate identical signal tags coalesce when they land in the same
    buffer scan. -/
theorem C2_fragmentation_invariance :
    ∀ (items : List Item) (chunks₁ chunks₂ : List Str),
      wfItems items = true →
      concatChunks chunks₁ = render items → concatChunks chunks₂ = render items →
      textOf (parseStream chunks₁) = textOf (parseStream chunks₂) ∧
      modeCallsOf (parseStream chunks₁) = modeCallsOf (parseStream chunks₂) ∧
      hasCallEv (parseStream chunks₁) = hasCallEv (parseStream chunks₂) ∧
      hasTimerEv (parseStream chunks₁) = hasTimerEv (parseStream chunks₂) := by
  intro items chunks₁ chunks₂ hw h₁ h₂
  have g₁ := runChunks_spec chunks₁ items [] [] hw rfl (Or.inl rfl) (by simpa using h₁)
  have g₂ := runChunks_spec chunks₂ items [] [] hw rfl (Or.inl rfl) (by simpa using h₂)
  have e₁ : runChunks ([] ++ []) chunks₁ = parseStream chunks₁ := rfl
  have e₂ : runChunks ([] ++ []) chunks₂ = parseStream chunks₂ := rfl
  rw [e₁] at g₁
  rw [e₂] at g₂
  exact ⟨g₁.1.trans g₂.1.symm, g₁.2.1.trans g₂.2.1.symm,
    g₁.2.2.1.trans g₂.2.2.1.symm, g₁.2.2.2.trans g₂.2.2.2.symm⟩

/-- Witness for C2's corrected statement: a signal tag split mid-name across
    fragments parses the same as the unsplit delivery. -/
theorem C2_witness :
    wfItems [Item.tag (Tag.signal (lc "CALL")), Item.txt (lc " ok")] = true ∧
    concatChunks [lc "[SIGNAL:CALL] ok"] =
      render [Item.tag (Tag.signal (lc "CALL")), Item.txt (lc " ok")] ∧
    concatChunks [lc "[SIG", lc "NAL:CALL] ok"] =
      render [Item.tag (Tag.signal (lc "CALL")), Item.txt (lc " ok")] ∧
    hasCallEv (parseStream [lc "[SIGNAL:CALL] ok"]) =
      hasCallEv (parseStream [lc "[SIG", lc "NAL:CALL] ok"]) ∧
    textOf (parseStream [lc "[SIGNAL:CALL] ok"]) =
      textOf (parseStream [lc "[SIG", lc "NAL:CALL] ok"]) := by
  have h := C2_fragmentation_invariance
    [Item.tag (Tag.signal (lc "CALL")), Item.txt (lc " ok")]
    [lc "[SIGNAL:CALL] ok"] [lc "[SIG", lc "NAL:CALL] ok"]
    (by decide) (by decide) (by decide)
  exact ⟨by decide, by decide, by decide, h.2.2.1, h.1⟩

end ClaimParse

section ClaimFork

/-- Claim C9 (counterexample): the telephone sub-session holds the SAME
    `ConversationContext` reference as the parent —
    `phone_state.conversation_context = calyx_state.conversation_context`
    assigns the object, not a copy — so a mutation through the sub-session
    reference is observable through the parent reference. -/
theorem C9_counterexample :
    (twilioFork (newCalyxState ⟨[]⟩).2 (newCalyxState ⟨[]⟩).1).1.ctxRef =
      (newCalyxState ⟨[]⟩).1.ctxRef ∧
    readCtx
      (writeCtx (twilioFork (newCalyxState ⟨[]⟩).2 (newCalyxState ⟨[]⟩).1).2
        (twilioFork (newCalyxState ⟨[]⟩).2 (newCalyxState ⟨[]⟩).1).1.ctxRef
        { ConversationContext.init with safe_word_verified := true })
      (newCalyxState ⟨[]⟩).1.ctxRef =
      { ConversationContext.init with safe_word_verified := true } := by
  exact ⟨by decide, by decide⟩

/-- Claim C9 (corrected): the telephone sub-session does fork a fresh
    `CalyxState` seeded from the parent — `incident_context` is copied (a
    string, so no shared mutability) and the mode machine starts fresh at
    DEFAULT with `is_phone_call` set — but `conversation_context` is assigned
    by reference: the sub-session and the parent share the same mutable
    `ConversationContext` object, so every write through the sub-session's
    reference is read back through the parent's reference. -/
theorem C9_fork_shares_context :
    ∀ (h : Heap) (parent : CalyxState), parent.ctxRef < h.ctxs.length →
      (twilioFork h parent).1.ctxRef = parent.ctxRef ∧
      (twilioFork h parent).1.incident_context = parent.incident_context ∧
      (twilioFork h parent).1.is_phone_call = true ∧
      (twilioFork h parent).1.mode = lc "DEFAULT" ∧
      readCtx (twilioFork h parent).2 (twilioFork h parent).1.ctxRef =
        readCtx h parent.ctxRef ∧
      ∀ c, readCtx
        (writeCtx (twilioFork h parent).2 (twilioFork h parent).1.ctxRef c)
        parent.ctxRef = c := by
  intro h parent hr
  refine ⟨rfl, rfl, rfl, rfl, ?_, ?_⟩
  · show ((h.ctxs ++ [ConversationContext.init]).get? parent.ctxRef).getD
      ConversationContext.init =
      (h.ctxs.get? parent.ctxRef).getD ConversationContext.init
    rw [List.get?_append hr]
  · intro c
    show (((h.ctxs ++ [ConversationContext.init]).set parent.ctxRef c).get?
      parent.ctxRef).getD ConversationContext.init = c
    rw [List.get?_set_eq_of_lt]
    · rfl
    · rw [List.length_append]
      omega

/-- Witness for C9's corrected statement at a two-session heap. -/
theorem C9_witness :
    (newCalyxState ⟨[]⟩).1.ctxRef < (newCalyxState ⟨[]⟩).2.ctxs.length ∧
    readCtx
      (writeCtx (twilioFork (newCalyxState ⟨[]⟩).2 (newCalyxState ⟨[]⟩).1).2
        (twilioFork (newCalyxState ⟨[]⟩).2 (newCalyxState ⟨[]⟩).1).1.ctxRef
        ConversationContext.init)
      (newCalyxState ⟨[]⟩).1.ctxRef = ConversationContext.init := by
  refine ⟨by decide, ?_⟩
  exact (C9_fork_shares_context (newCalyxState ⟨[]⟩).2 (newCalyxState ⟨[]⟩).1
    (by decide)).2.2.2.2.2 ConversationContext.init

end ClaimFork

section ClaimTranscript

/-- Claim C10 (confirmed): in the browser session every finalized transcript
    whose lower-cased text contains the substring `safe` or `end session`
    triggers evidence-PDF generation, sends the evidence link to the
    emergency contact, and sends the download message — regardless of whether
    the configured safe word was spoken. -/
theorem C10_safe_substring_triggers_evidence :
    ∀ (text : Str) (sosPending : Bool),
      (hasSub (lc "safe") (lowerStr text) = true ∨
       hasSub (lc "end session") (lowerStr text) = true) →
      TAct.genEvidencePDF ∈ onTranscript text sosPending ∧
      TAct.sendEvidenceLink ∈ onTranscript text sosPending ∧
      TAct.downloadMsg ∈ onTranscript text sosPending := by
  intro text sosPending hcond
  have hb : (hasSub (lc "safe") (lowerStr text)
      || hasSub (lc "end session") (lowerStr text)) = true := by
    rcases hcond with h | h <;> simp [h]
  unfold onTranscript
  rw [hb]
  refine ⟨?_, ?_, ?_⟩ <;> simp

/-- Witness for C10: the utterance `I am not safe` does not contain the safe
    word `blueberries`, yet it triggers the evidence pipeline. -/
theorem C10_witness :
    (hasSub (lc "safe") (lowerStr (lc "I am not safe")) = true ∨
     hasSub (lc "end session") (lowerStr (lc "I am not safe")) = true) ∧
    hasSub (lowerStr SAFE_WORD) (lowerStr (lc "I am not safe")) = false ∧
    TAct.genEvidencePDF ∈ onTranscript (lc "I am not safe") false := by
  refine ⟨Or.inl (by decide), by decide, ?_⟩
  exact (C10_safe_substring_triggers_evidence (lc "I am not safe") false
    (Or.inl (by decide))).1

end ClaimTranscript

end Calyx
